import Mathlib

/-!
# Verification of the syn-rsx RSX parser (`src/parser.rs`, `src/lib.rs`)

A shallow embedding of the recursive-descent RSX parser.  The token
stream of `proc-macro2` is modelled as a list of token trees; a
`syn::ParseStream` is modelled as the list of tokens still ahead of the
cursor.  Every grammar rule of `src/parser.rs` becomes a function
`List Tok → Except String α × List Tok` that returns the rule's result
together with the stream state the rule left behind — returning the
state also on errors captures syn's mutable-cursor semantics, in which
a failed sequence of parses can leave tokens consumed unless the caller
worked on a fork.

The node data model (`Node`, `NodeName`, `NodeType`) lives in the
repository's `src/node.rs`, which is not part of the given sources; it
is modelled from the spec (section 3 DATA MODEL).  syn / proc-macro2
primitives (`Token![<]`, `Ident::parse_any`, `Punctuated`,
`Path::parse_mod_style`'s building blocks, `Parser::parse2`) are
external collaborators and are modelled after their documented
behaviour, with comments noting the modelling choices.
-/

/-- Delimiter of a `proc_macro2::Group`. -/
inductive Delim where
  | brace
  | paren
  | bracket
deriving DecidableEq

/-- A `proc_macro2::TokenTree`: identifier (keywords included), a
punctuation character with its spacing (`joint = true` when glued to
the following punctuation, as in the first colon of `::`), a literal,
or a delimited group. -/
inductive Tok where
  | ident (s : String)
  | punct (c : Char) (joint : Bool)
  | lit (s : String)
  | group (d : Delim) (inner : List Tok)

/-- Modelled from the spec: `src/node.rs` is missing from the sources.
`NodeName` per section 3 — `Path` with an optional leading separator
and one or more segments; `Dash`/`Colon` with their identifier
segments.  The underlying `syn::punctuated::Punctuated` also records a
trailing separator, kept here as the `trailing` flag, and name
equality (used for tag matching) is structural. -/
inductive NodeName where
  | path (leadingColon : Bool) (segments : List String)
  | dash (segments : List String) (trailing : Bool)
  | colon (segments : List String) (trailing : Bool)
deriving DecidableEq

/-- Modelled from the spec: node type discriminant of `src/node.rs`. -/
inductive NodeType where
  | text
  | block
  | element
  | attribute
deriving DecidableEq

/-- Modelled from the spec: an `OpaqueExpr` — an uninterpreted host
expression fragment.  A literal (`syn::ExprLit`, covering literal
tokens and the `true` / `false` identifiers), a braced block
(`syn::ExprBlock`, kept as its uninterpreted inner tokens), or a
generic expression token captured for an attribute value. -/
inductive Expr where
  | lit (s : String)
  | block (inner : List Tok)
  | tokens (t : Tok)

/-- Modelled from the spec: the `Node` record of `src/node.rs`
(section 3 DATA MODEL). -/
inductive Node where
  | mk (name : Option NodeName) (value : Option Expr) (node_type : NodeType)
       (attributes : List Node) (children : List Node)

def Node.name : Node → Option NodeName
  | .mk n _ _ _ _ => n

def Node.value : Node → Option Expr
  | .mk _ v _ _ _ => v

def Node.node_type : Node → NodeType
  | .mk _ _ t _ _ => t

def Node.attributes : Node → List Node
  | .mk _ _ _ a _ => a

def Node.children : Node → List Node
  | .mk _ _ _ _ c => c

/-- `struct Tag` of `src/parser.rs` (lines 15-19). -/
structure Tag where
  name : NodeName
  attributes : List Node
  selfclosing : Bool

/-- A grammar rule against a cursor: result and the stream state the
rule left behind (also meaningful on failure — syn's `ParseStream` is a
mutable cursor). -/
def PM (α : Type) : Type := List Tok → Except String α × List Tok

instance : Monad PM where
  pure a := fun st => (.ok a, st)
  bind m f := fun st =>
    match m st with
    | (.ok a, st') => f a st'
    | (.error e, st') => (.error e, st')

/-- `input.fork()` + `input.advance_to(fork)` on success: the rule runs
on a copy of the cursor; a failure discards the copy, leaving the
original untouched. -/
def atomic (m : PM α) : PM α := fun st =>
  match m st with
  | (.ok a, st') => (.ok a, st')
  | (.error e, _) => (.error e, st)

/-! ## syn / proc-macro2 primitives (models) -/

def expectedPunctMsg : String := "expected punctuation"

/-- Model of parsing a one-character syn token such as `Token![<]`,
`Token![>]`, `Token![/]`, `Token![:]`, or the custom `Dash`
punctuation: it matches a punct with that character regardless of its
spacing, and is atomic (a `ParseStream::step`). -/
def parsePunct (c : Char) : PM Unit := fun st =>
  match st with
  | Tok.punct c' _ :: rest => if c' = c then (.ok (), rest) else (.error expectedPunctMsg, st)
  | _ => (.error expectedPunctMsg, st)

/-- Model of `input.parse::<Option<Token![/]>>()`: consumes a `/` punct
when present; never fails. -/
def parseOptSlash : PM Bool := fun st =>
  match st with
  | Tok.punct '/' _ :: rest => (.ok true, rest)
  | _ => (.ok false, st)

/-- Model of `input.parse::<Option<Token![=]>>()` in `attribute`. -/
def parseOptEq : PM Bool := fun st =>
  match st with
  | Tok.punct '=' _ :: rest => (.ok true, rest)
  | _ => (.ok false, st)

/-- Model of parsing `Option<Token![::]>` (the leading path separator
in `node_name_mod_style`): the first colon must be joint with the
second; consumes both when present, otherwise `None`. -/
def parseOptColon2 : List Tok → Bool × List Tok
  | Tok.punct ':' true :: Tok.punct ':' _ :: rest => (true, rest)
  | st => (false, st)

/-- Model of `input.peek(Token![::])`. -/
def peekColon2 : List Tok → Bool
  | Tok.punct ':' true :: Tok.punct ':' _ :: _ => true
  | _ => false

/-- Model of `Ident::parse_any`: any identifier, keywords included. -/
def parseIdentAny : PM String := fun st =>
  match st with
  | Tok.ident s :: rest => (.ok s, rest)
  | _ => (.error "expected ident", st)

/-- Model of `input.peek(Ident::peek_any)`. -/
def peekIdentAny : List Tok → Bool
  | Tok.ident _ :: _ => true
  | _ => false

/-- Model of `input.peek(Token![super])` and friends: a specific
identifier ahead. -/
def peekIdent (s : String) : List Tok → Bool
  | Tok.ident s' :: _ => s' = s
  | _ => false

/-- Model of peeking a punct of a given character (e.g. the custom
`Dash` or `syn::token::Colon` in `node_name_punctuated_ident`):
single-character puncts match regardless of spacing. -/
def peekPunct (c : Char) : List Tok → Bool
  | Tok.punct c' _ :: _ => c' = c
  | _ => false

/-- Model of `input.peek(Brace)`. -/
def peekBrace : List Tok → Bool
  | Tok.group Delim.brace _ :: _ => true
  | _ => false

/-- Model of `input.parse::<TokenTree>()`: any single token tree. -/
def parseTokenTree : PM Tok := fun st =>
  match st with
  | t :: rest => (.ok t, rest)
  | [] => (.error "expected token tree", st)

/-- Model of `input.parse::<ExprLit>()` (`Parser::text`, line 71):
`syn::Lit` accepts a literal token, or the identifiers `true` and
`false`; atomic. -/
def parseLit : PM Expr := fun st =>
  match st with
  | Tok.lit s :: rest => (.ok (Expr.lit s), rest)
  | Tok.ident "true" :: rest => (.ok (Expr.lit "true"), rest)
  | Tok.ident "false" :: rest => (.ok (Expr.lit "false"), rest)
  | _ => (.error "expected literal", st)

/-- Modelled from the spec: an attribute value that is not a braced
block is "a generic expression token" — parsed as a single captured
token tree (`fork.parse()` into `syn::Expr` is an external syn
collaborator; the spec describes the captured value as one expression
token). -/
def exprParseF : PM Expr := fun st =>
  match parseTokenTree st with
  | (.ok t, st') => (.ok (Expr.tokens t), st')
  | (.error e, st') => (.error e, st')

/-! ## Node-name grammar (`node_name_punctuated_ident`,
`node_name_mod_style`, `node_name`; lines 234-320) -/

/-- The collection loop of `node_name_punctuated_ident` (lines
256-265): while the fork is non-empty and an identifier is ahead,
parse the identifier and push it; if the `punct` separator is ahead,
consume and push it and continue, otherwise break.  Returns the
accumulated segments, whether the last pushed item was a separator
(`Punctuated::trailing_punct`), and the fork's final state.  The loop
itself cannot fail: every `?`-parse happens after a successful peek. -/
def punctIdentLoop (c : Char) (vals : List String) (trailing : Bool) :
    List Tok → (List String × Bool) × List Tok
  | Tok.ident s :: rest =>
      match rest with
      | Tok.punct c' _ :: rest' =>
          if c' = c then punctIdentLoop c (vals ++ [s]) true rest'
          else ((vals ++ [s], false), rest)
      | _ => ((vals ++ [s], false), rest)
  | st => ((vals, trailing), st)

/-- `node_name_punctuated_ident` (lines 248-273): run the collection
loop on a fork; commit only when more than one segment was parsed,
otherwise fail without consuming. -/
def nodeNamePunctIdent (c : Char) : PM (List String × Bool) := fun st =>
  match punctIdentLoop c [] false st with
  | ((vals, tr), st') =>
      if vals.length > 1 then (.ok (vals, tr), st')
      else (.error "expected punctuated node name", st)

/-- The segment loop of `node_name_mod_style` (lines 288-304): stop
unless an identifier (or an identifier-shaped keyword — `super`,
`self`, `Self`, `crate` are identifier tokens, so `Ident::peek_any`
already covers them) is ahead; parse it; if `::` is ahead (first colon
joint), consume it and continue, else stop.  `trailing` tracks
`Punctuated::trailing_punct`. -/
def modStyleLoop (segs : List String) (trailing : Bool) :
    List Tok → (List String × Bool) × List Tok
  | Tok.ident s :: Tok.punct ':' true :: Tok.punct ':' _ :: rest =>
      modStyleLoop (segs ++ [s]) true rest
  | Tok.ident s :: rest => ((segs ++ [s], false), rest)
  | st => ((segs, trailing), st)

/-- `node_name_mod_style` (lines 280-320): on a fork, an optional
leading `::`, then the segment loop; empty segments give "expected
path", a trailing separator gives "expected path segment"; commit on
success, discard the fork on failure. -/
def nodeNameModStyle : PM NodeName := fun st =>
  match parseOptColon2 st with
  | (lead, st₁) =>
    match modStyleLoop [] false st₁ with
    | ((segs, trailing), st₂) =>
        if segs.isEmpty then (.error "expected path", st)
        else if trailing then (.error "expected path segment", st)
        else (.ok (NodeName.path lead segs), st₂)

/-- `node_name` (lines 234-246): try the `Dash` form, else the `Colon`
form, else mod-style path, else report "invalid node name".  The
`or_else` chain hands the stream state of the failed attempt (which is
the original state, as each attempt works on a fork) to the next
attempt. -/
def nodeNameF : PM NodeName := fun st =>
  match nodeNamePunctIdent '-' st with
  | (.ok (vals, tr), st') => (.ok (NodeName.dash vals tr), st')
  | (.error _, st₁) =>
    match nodeNamePunctIdent ':' st₁ with
    | (.ok (vals, tr), st') => (.ok (NodeName.colon vals tr), st')
    | (.error _, st₂) =>
      match nodeNameModStyle st₂ with
      | (.ok nm, st') => (.ok nm, st')
      | (.error _, st₃) => (.error "invalid node name", st₃)

/-! ## Tag grammar (`tag_open`, `tag_open_end`, `tag_close`,
`attributes`, `attribute`; lines 153-232) -/

/-- `tag_open_end` (lines 177-182): an optional `/` then `>`.  Not
run on a fork: a failure after the optional `/` was consumed leaves
that `/` consumed on the caller's stream. -/
def tagOpenEndF : PM Bool := fun st =>
  match parseOptSlash st with
  | (.ok sc, st₁) =>
    match parsePunct '>' st₁ with
    | (.ok _, st₂) => (.ok sc, st₂)
    | (.error e, st₂) => (.error e, st₂)
  | (.error e, st₁) => (.error e, st₁)

def fuelMsg : String := "parser fuel exhausted"

/-- The attribute-span scan loop of `tag_open` (lines 158-165): until
`tag_open_end` succeeds on the stream itself, move one token tree into
the captured span.  The loop runs directly on the (element's fork)
stream, so a `tag_open_end` attempt that consumed a `/` before failing
drops that `/`.  `fuel` is a modelling artifact bounding the
iteration count; every iteration consumes at least one token, so any
fuel above the stream length is never exhausted. -/
def tagOpenScanF : Nat → List Tok → PM (Bool × List Tok)
  | 0, _ => fun st => (.error fuelMsg, st)
  | fuel + 1, acc => fun st =>
    match tagOpenEndF st with
    | (.ok sc, st') => (.ok (sc, acc), st')
    | (.error _, st₁) =>
      match parseTokenTree st₁ with
      | (.ok t, st₂) => tagOpenScanF fuel (acc ++ [t]) st₂
      | (.error e, st₂) => (.error e, st₂)

/-- `block_expr` (lines 94-102): fork, take one token tree, re-parse
it alone as an `ExprBlock` (a braced group), advance on success. -/
def blockExprF : PM Expr := fun st =>
  match parseTokenTree st with
  | (.ok (Tok.group Delim.brace inner), st') => (.ok (Expr.block inner), st')
  | (.ok _, _) => (.error "expected curly braces", st)
  | (.error e, _) => (.error e, st)

/-- `attribute` (lines 216-232): on a fork, a node name, an optional
`=`, and — when `=` is present — a braced block expression or a
generic expression token; commit on success. -/
def attributeF : PM (NodeName × Option Expr) := atomic (fun st =>
  match nodeNameF st with
  | (.error e, st') => (.error e, st')
  | (.ok key, st₁) =>
    match parseOptEq st₁ with
    | (.ok eq, st₂) =>
        if eq then
          match (if peekBrace st₂ then blockExprF st₂ else exprParseF st₂) with
          | (.ok v, st₃) => (.ok (key, some v), st₃)
          | (.error e, st₃) => (.error e, st₃)
        else (.ok (key, none), st₂)
    | (.error e, st₂) => (.error e, st₂))

/-- The `while let Ok(..)` collection loop of `attributes` (lines
199-211): parse pairs while `attribute` keeps succeeding, pushing an
`Attribute` node for each; a failed pair ends the loop silently (its
error is discarded); stop early when the span is exhausted.  `fuel`
is a modelling artifact as in `tagOpenScanF`. -/
def attrLoopF : Nat → List Node → PM (List Node)
  | 0, _ => fun st => (.error fuelMsg, st)
  | fuel + 1, nodes => fun st =>
    match attributeF st with
    | (.error _, stE) => (.ok nodes, stE)
    | (.ok (key, value), st') =>
      let nodes' := nodes ++ [Node.mk (some key) value NodeType.attribute [] []]
      if st'.isEmpty then (.ok nodes', st') else attrLoopF fuel nodes' st'

/-- `attributes` (lines 193-214): empty span gives no attributes,
otherwise the collection loop. -/
def attributesF : PM (List Node) := fun st =>
  if st.isEmpty then (.ok [], st) else attrLoopF (st.length + 1) [] st

/-- Model of `syn::parse::Parser::parse2` applied to a parser closure:
run it on the token stream and demand that the whole stream was
consumed, otherwise fail with syn's "unexpected token" error. -/
def runParser2 (p : PM α) (tokens : List Tok) : Except String α :=
  match p tokens with
  | (.ok a, st) => if st.isEmpty then .ok a else .error "unexpected token"
  | (.error e, _) => .error e

/-- `tag_open` (lines 153-175): `<`, a node name, the span scan, then
the captured span parsed as an attribute list with `parse2`.  Runs on
the stream it is handed (the element's fork): failures can leave
tokens consumed. -/
def tagOpenF : PM Tag := fun st =>
  match parsePunct '<' st with
  | (.error e, st') => (.error e, st')
  | (.ok _, st₁) =>
    match nodeNameF st₁ with
    | (.error e, st₂) => (.error e, st₂)
    | (.ok name, st₂) =>
      match tagOpenScanF (st₂.length + 1) [] st₂ with
      | (.error e, st₃) => (.error e, st₃)
      | (.ok (sc, span), st₃) =>
        match runParser2 attributesF span with
        | .error e => (.error e, st₃)
        | .ok attrs => (.ok ⟨name, attrs, sc⟩, st₃)

/-- `tag_close` (lines 184-191): `<`, `/`, a node name, `>`.  Runs on
the stream it is handed: failures can leave tokens consumed. -/
def tagCloseF : PM NodeName := fun st =>
  match parsePunct '<' st with
  | (.error e, st') => (.error e, st')
  | (.ok _, st₁) =>
    match parsePunct '/' st₁ with
    | (.error e, st₂) => (.error e, st₂)
    | (.ok _, st₂) =>
      match nodeNameF st₂ with
      | (.error e, st₃) => (.error e, st₃)
      | (.ok name, st₃) =>
        match parsePunct '>' st₃ with
        | (.error e, st₄) => (.error e, st₄)
        | (.ok _, st₄) => (.ok name, st₄)

/-! ## Tree builder (`text`, `block`, `has_children`, `element`,
`node`, `parse`; lines 45-151) -/

/-- `text` (lines 70-80). -/
def textF : PM Node := fun st =>
  match parseLit st with
  | (.ok e, st') => (.ok (Node.mk none (some e) NodeType.text [] []), st')
  | (.error e, st') => (.error e, st')

/-- `block` (lines 82-92). -/
def blockF : PM Node := fun st =>
  match blockExprF st with
  | (.ok e, st') => (.ok (Node.mk none (some e) NodeType.block [] []), st')
  | (.error e, st') => (.error e, st')

/-- `has_children` (lines 134-151): an empty stream means the open tag
was never closed; a close tag ahead (checked on a fork) with the
matching name ends the children, with a different name it is an
invalid tree; otherwise there is another child. -/
def hasChildrenF (tagName : NodeName) : PM Bool := fun st =>
  if st.isEmpty then (.error "open tag has no corresponding close tag", st)
  else
    match (tagCloseF st).1 with
    | .ok closeName =>
        if tagName = closeName then (.ok false, st)
        else (.error "close tag has no corresponding open tag", st)
    | .error _ => (.ok true, st)

/-- The flattening step of `node` (lines 60-65): in flatten mode move
the node's children out, next to it in the returned list. -/
def flattenStep (flatten : Bool) : Node → List Node
  | Node.mk name value t attrs children =>
      if flatten then Node.mk name value t attrs [] :: children
      else [Node.mk name value t attrs children]

mutual

/-- `node` (lines 54-68): text, else block, else element — each
attempt non-consuming on failure, the `or_else` chain handing the
stream state along — then the flattening step.  `fuel` is a modelling
artifact bounding the recursion depth (the Rust recursion descends on
a strictly shrinking stream). -/
def nodeF (flatten : Bool) : Nat → PM (List Node)
  | 0 => fun st => (.error fuelMsg, st)
  | fuel + 1 => fun st =>
    match textF st with
    | (.ok n, st') => (.ok (flattenStep flatten n), st')
    | (.error _, st₁) =>
      match blockF st₁ with
      | (.ok n, st') => (.ok (flattenStep flatten n), st')
      | (.error _, st₂) =>
        match elementF flatten fuel st₂ with
        | (.ok n, st') => (.ok (flattenStep flatten n), st')
        | (.error e, st') => (.error e, st')

/-- `element` (lines 104-132): fail on a stray close tag ahead
(checked on a discarded fork); parse the open tag on a fork; unless
self-closing, collect children and the matching close tag; commit the
fork on success, leave the input untouched on failure. -/
def elementF (flatten : Bool) : Nat → PM Node
  | 0 => fun st => (.error fuelMsg, st)
  | fuel + 1 => fun st =>
    if (tagCloseF st).1.isOk then
      (.error "close tag has no corresponding open tag", st)
    else
      match tagOpenF st with
      | (.error e, _) => (.error e, st)
      | (.ok tag, st₁) =>
        if tag.selfclosing then
          (.ok (Node.mk (some tag.name) none NodeType.element tag.attributes []), st₁)
        else
          match childLoopF flatten fuel tag.name [] st₁ with
          | (.error e, _) => (.error e, st)
          | (.ok children, st₂) =>
            match tagCloseF st₂ with
            | (.error e, _) => (.error e, st)
            | (.ok _, st₃) =>
              (.ok (Node.mk (some tag.name) none NodeType.element tag.attributes children), st₃)

/-- The children loop of `element` (lines 111-122): while
`has_children` says so, append the nodes `node` produces. -/
def childLoopF (flatten : Bool) : Nat → NodeName → List Node → PM (List Node)
  | 0, _, _ => fun st => (.error fuelMsg, st)
  | fuel + 1, tagName, acc => fun st =>
    match hasChildrenF tagName st with
    | (.error e, st') => (.error e, st')
    | (.ok false, st') => (.ok acc, st')
    | (.ok true, st') =>
      match nodeF flatten fuel st' with
      | (.error e, st'') => (.error e, st'')
      | (.ok ns, st'') => childLoopF flatten fuel tagName (acc ++ ns) st''

end

/-- `Parser::parse` (lines 45-52): invoke `node` until the cursor
reaches end of input, concatenating the produced nodes. -/
def parseF (flatten : Bool) : Nat → PM (List Node)
  | 0 => fun st => (.error fuelMsg, st)
  | fuel + 1 => fun st =>
    if st.isEmpty then (.ok [], st)
    else
      match nodeF flatten fuel st with
      | (.error e, st') => (.error e, st')
      | (.ok ns, st') =>
        match parseF flatten fuel st' with
        | (.error e, st'') => (.error e, st'')
        | (.ok rest, st'') => (.ok (ns ++ rest), st'')

/-- Fuel that always suffices for `parseF` on the given stream: each
fuel-consuming call either consumes a token right away or stands at
most three call layers from one that does. -/
def topFuel (tokens : List Tok) : Nat := 4 * tokens.length + 4

/-- `parse2` of `src/lib.rs` (lines 72-79): build the parser from the
optional configuration (`flatten` defaults to `false`) and drive it
over the whole stream with `Parser::parse2`.  `parse` (lines 59-66)
is the same up to the host representation of the token stream, which
the embedding does not distinguish. -/
def parse2 (tokens : List Tok) (config : Option Bool) : Except String (List Node) :=
  runParser2 (parseF (config.getD false) (topFuel tokens)) tokens

/-! ## Derived notions used by the verified properties -/

/-- A node with its children removed — what the flatten transform
leaves in place of a parent. -/
def stripChildren : Node → Node
  | .mk n v t a _ => .mk n v t a []

/-- Pre-order (document order) traversal of a node forest, every
visited node emitted with an empty `children` field and an untouched
`attributes` field. -/
def preorder : List Node → List Node
  | [] => []
  | .mk n v t a c :: rest => .mk n v t a [] :: (preorder c ++ preorder rest)

/-- Total number of nodes in a nested forest (children counted
recursively; attributes stay inside their node). -/
def countNodes : List Node → Nat
  | [] => 0
  | .mk _ _ _ _ c :: rest => 1 + countNodes c + countNodes rest

/-- All `children` fields of the nodes of a list are empty. -/
def childrenEmptyAll : List Node → Bool
  | [] => true
  | .mk _ _ _ _ c :: rest => c.isEmpty && childrenEmptyAll rest

/-- Lift a node-list relation over a rule result: map `preorder` over
a success, keep failures (and the stream state) unchanged. -/
def mapPreL : Except String (List Node) × List Tok → Except String (List Node) × List Tok
  | (.ok l, st) => (.ok (preorder l), st)
  | (.error e, st) => (.error e, st)

/-- Map `preorder` over the children field of an element result. -/
def mapPreE : Except String Node × List Tok → Except String Node × List Tok
  | (.ok (.mk n v t a c), st) => (.ok (.mk n v t a (preorder c)), st)
  | (.error e, st) => (.error e, st)

mutual

/-- Per-type field invariants of section 3 of the spec: `Text` /
`Block` carry no name, a value and nothing else; `Attribute` carries a
name, an optional value and nothing else; `Element` carries a name, no
value, well-formed `Attribute` nodes as attributes and well-formed
children. -/
def nodeOkB : Node → Bool
  | .mk name value t attrs children =>
    match t with
    | .text => name.isNone && value.isSome && attrs.isEmpty && children.isEmpty
    | .block => name.isNone && value.isSome && attrs.isEmpty && children.isEmpty
    | .attribute => name.isSome && attrs.isEmpty && children.isEmpty
    | .element => name.isSome && value.isNone && attrsOkB attrs && nodesOkB children

/-- Every node of the list is an `Attribute` node satisfying the
invariants. -/
def attrsOkB : List Node → Bool
  | [] => true
  | n :: rest => (n.node_type = NodeType.attribute) && nodeOkB n && attrsOkB rest

/-- Every node of the list satisfies the invariants. -/
def nodesOkB : List Node → Bool
  | [] => true
  | n :: rest => nodeOkB n && nodesOkB rest

end

/-- The head of the stream is an identifier token. -/
def identHead : List Tok → Bool
  | Tok.ident _ :: _ => true
  | _ => false

/-- A token that cannot take part in a `tag_open_end` match: neither a
`/` punct nor a `>` punct. -/
def cleanTok : Tok → Bool
  | Tok.punct '/' _ => false
  | Tok.punct '>' _ => false
  | _ => true

/-- Identifier segments joined by single-character separators `c`
(the token form of a `Dash` or `Colon` name), separator spacing `j`. -/
def joinPunct (c : Char) (j : Bool) : List String → List Tok
  | [] => []
  | [s] => [Tok.ident s]
  | s :: rest => Tok.ident s :: Tok.punct c j :: joinPunct c j rest

/-- Identifier segments joined by `::` (the token form of a mod-style
path). -/
def joinPath : List String → List Tok
  | [] => []
  | [s] => [Tok.ident s]
  | s :: rest => Tok.ident s :: Tok.punct ':' true :: Tok.punct ':' false :: joinPath rest

/-! ## Helper lemmas: failure leaves the stream where the rule found it
(for the rules that fork internally) -/

theorem punctIdent_error_eq {c : Char} {st st' : List Tok} {e : String}
    (h : nodeNamePunctIdent c st = (.error e, st')) : st' = st := by
  unfold nodeNamePunctIdent at h
  split at h
  split at h
  · exact absurd h (by simp)
  · exact (Prod.mk.injEq _ _ _ _ ▸ h).2.symm ▸ rfl

theorem modStyle_error_eq {st st' : List Tok} {e : String}
    (h : nodeNameModStyle st = (.error e, st')) : st' = st := by
  unfold nodeNameModStyle at h
  split at h
  split at h
  split at h
  · simp only [Prod.mk.injEq] at h
    exact h.2.symm
  · split at h
    · simp only [Prod.mk.injEq] at h
      exact h.2.symm
    · exact absurd h (by simp)

theorem nodeName_error_eq {st st' : List Tok} {e : String}
    (h : nodeNameF st = (.error e, st')) : st' = st := by
  unfold nodeNameF at h
  split at h
  · exact absurd h (by simp)
  · rename_i e₁ st₁ h₁
    split at h
    · exact absurd h (by simp)
    · rename_i e₂ st₂ h₂
      split at h
      · exact absurd h (by simp)
      · rename_i e₃ st₃ h₃
        simp only [Prod.mk.injEq] at h
        rw [← h.2, modStyle_error_eq h₃, punctIdent_error_eq h₂, punctIdent_error_eq h₁]

theorem parseLit_error_eq {st st' : List Tok} {e : String}
    (h : parseLit st = (.error e, st')) : st' = st := by
  unfold parseLit at h
  split at h <;> simp_all

theorem textF_error_eq {st st' : List Tok} {e : String}
    (h : textF st = (.error e, st')) : st' = st := by
  unfold textF at h
  split at h
  · exact absurd h (by simp)
  · rename_i e₁ st₁ h₁
    simp only [Prod.mk.injEq] at h
    rw [← h.2]
    exact parseLit_error_eq h₁

theorem blockF_error_eq {st st' : List Tok} {e : String}
    (h : blockF st = (.error e, st')) : st' = st := by
  unfold blockF blockExprF at h
  split at h
  · exact absurd h (by simp)
  · rename_i e₁ st₁ h₁
    split at h₁ <;> simp_all

theorem attributeF_error_eq {st st' : List Tok} {e : String}
    (h : attributeF st = (.error e, st')) : st' = st := by
  unfold attributeF atomic at h
  split at h
  · exact absurd h (by simp)
  · simp_all

theorem elementF_error_eq {flatten : Bool} {fuel : Nat} {st st' : List Tok} {e : String}
    (h : elementF flatten fuel st = (.error e, st')) : st' = st := by
  cases fuel with
  | zero =>
    simp only [elementF, Prod.mk.injEq] at h
    exact h.2.symm
  | succ n =>
    simp only [elementF] at h
    split at h
    · simp_all
    · split at h
      · simp_all
      · split at h
        · exact absurd h (by simp)
        · split at h
          · simp_all
          · split at h
            · simp_all
            · exact absurd h (by simp)

/-! ## C1 — non-consuming failure -/

/-- C1 (counterexample): the claim is false for `tag_close`,
`tag_open_end` and `tag_open`.  On the stream `< a`, `tag_close`
fails after consuming the `<`; on `/ b`, `tag_open_end` fails after
consuming the `/`; on the lone `<`, `tag_open` fails after consuming
it.  In each case the stream the failed rule leaves behind differs
from the stream it was given. -/
theorem c1_counterexample :
    tagCloseF [Tok.punct '<' false, Tok.ident "a"] = (.error expectedPunctMsg, [Tok.ident "a"])
      ∧ [Tok.ident "a"] ≠ [Tok.punct '<' false, Tok.ident "a"]
      ∧ tagOpenEndF [Tok.punct '/' false, Tok.ident "b"] = (.error expectedPunctMsg, [Tok.ident "b"])
      ∧ [Tok.ident "b"] ≠ [Tok.punct '/' false, Tok.ident "b"]
      ∧ tagOpenF [Tok.punct '<' false] = (.error "invalid node name", ([] : List Tok))
      ∧ ([] : List Tok) ≠ [Tok.punct '<' false] := by
  refine ⟨rfl, ?_, rfl, ?_, rfl, ?_⟩ <;> simp

/-- C1 (amended): the grammar rules that are tried as alternatives —
`text`, `block`, `element`, `node_name`, `attribute` — never consume
tokens on failure: a failed attempt returns the input stream exactly
as it was.  (`tag_open`, `tag_open_end` and `tag_close` do not have
this property on their own streams — see the counterexample — but
every caller runs them on a fork, so their partial consumption never
escapes into the caller's cursor.) -/
theorem c1_alternatives_nonconsuming :
    (∀ st st' e, textF st = (.error e, st') → st' = st)
      ∧ (∀ st st' e, blockF st = (.error e, st') → st' = st)
      ∧ (∀ flatten fuel st st' e, elementF flatten fuel st = (.error e, st') → st' = st)
      ∧ (∀ st st' e, nodeNameF st = (.error e, st') → st' = st)
      ∧ (∀ st st' e, attributeF st = (.error e, st') → st' = st) :=
  ⟨fun _ _ _ h => textF_error_eq h,
   fun _ _ _ h => blockF_error_eq h,
   fun _ _ _ _ _ h => elementF_error_eq h,
   fun _ _ _ h => nodeName_error_eq h,
   fun _ _ _ h => attributeF_error_eq h⟩

/-- C1 (witness): the amended theorem applied at concrete failing
inputs — a failed `element` attempt on the stray close tag `</b>` and
a failed `node_name` attempt on a literal both leave the stream
untouched. -/
theorem c1_witness :
    ([Tok.punct '<' false, Tok.punct '/' false, Tok.ident "b", Tok.punct '>' false]
        = [Tok.punct '<' false, Tok.punct '/' false, Tok.ident "b", Tok.punct '>' false])
      ∧ ([Tok.lit "1"] = [Tok.lit "1"]) :=
  ⟨c1_alternatives_nonconsuming.2.2.1 false 5
      [Tok.punct '<' false, Tok.punct '/' false, Tok.ident "b", Tok.punct '>' false]
      [Tok.punct '<' false, Tok.punct '/' false, Tok.ident "b", Tok.punct '>' false]
      "close tag has no corresponding open tag" rfl,
   c1_alternatives_nonconsuming.2.2.2.1 [Tok.lit "1"] [Tok.lit "1"] "invalid node name" rfl⟩

/-! ## C3 — the element rule's structural diagnostics -/

/-- C3: the element rule's three diagnosable structural failures.
(1) When the tokens ahead parse as a close tag, `element` fails at
once with "close tag has no corresponding open tag", consuming
nothing.  (2) When input is exhausted while collecting a
non-self-closing element's children, the children loop fails with
"open tag has no corresponding close tag".  (3) When a close tag with
a name different from the open tag's is ahead, the children loop
fails with "close tag has no corresponding open tag".  Concretely,
`<a></b>` parses to the close-tag error and `<a>` to the open-tag
error. -/
theorem c3_structural_errors :
    (∀ flatten fuel st, ((tagCloseF st).1.isOk = true) →
        elementF flatten (fuel + 1) st = (.error "close tag has no corresponding open tag", st))
      ∧ (∀ flatten fuel name acc, childLoopF flatten (fuel + 1) name acc []
          = (.error "open tag has no corresponding close tag", ([] : List Tok)))
      ∧ (∀ flatten fuel name acc st nm, st.isEmpty = false → (tagCloseF st).1 = .ok nm →
          name ≠ nm →
          childLoopF flatten (fuel + 1) name acc st
            = (.error "close tag has no corresponding open tag", st))
      ∧ parse2 [Tok.punct '<' false, Tok.ident "a", Tok.punct '>' false,
                Tok.punct '<' false, Tok.punct '/' false, Tok.ident "b", Tok.punct '>' false] none
          = .error "close tag has no corresponding open tag"
      ∧ parse2 [Tok.punct '<' false, Tok.ident "a", Tok.punct '>' false] none
          = .error "open tag has no corresponding close tag" := by
  refine ⟨?_, ?_, ?_, rfl, rfl⟩
  · intro flatten fuel st h
    simp only [elementF, h, if_true]
  · intro flatten fuel name acc
    simp [childLoopF, hasChildrenF]
  · intro flatten fuel name acc st nm hne hclose hname
    simp only [childLoopF, hasChildrenF, hne, Bool.false_eq_true, if_false, hclose]
    simp [hname]

/-- C3 (witness): the theorem applied at the concrete stream `</b>`:
it parses as a close tag, so `element` fails with the stray-close
diagnostic there (part 1), and the children loop of an open `<a>` tag
rejects it as mismatched (part 3). -/
theorem c3_witness :
    elementF false 3 [Tok.punct '<' false, Tok.punct '/' false, Tok.ident "b", Tok.punct '>' false]
        = (.error "close tag has no corresponding open tag",
           [Tok.punct '<' false, Tok.punct '/' false, Tok.ident "b", Tok.punct '>' false])
      ∧ childLoopF false 3 (NodeName.path false ["a"]) []
          [Tok.punct '<' false, Tok.punct '/' false, Tok.ident "b", Tok.punct '>' false]
        = (.error "close tag has no corresponding open tag",
           [Tok.punct '<' false, Tok.punct '/' false, Tok.ident "b", Tok.punct '>' false]) :=
  ⟨c3_structural_errors.1 false 2
      [Tok.punct '<' false, Tok.punct '/' false, Tok.ident "b", Tok.punct '>' false] rfl,
   c3_structural_errors.2.2.1 false 2 (NodeName.path false ["a"]) []
      [Tok.punct '<' false, Tok.punct '/' false, Tok.ident "b", Tok.punct '>' false]
      (NodeName.path false ["b"]) rfl rfl (by decide)⟩

/-! ## C10 — the top-level parse loop -/

/-- C10: for every configuration, `parse2` (and `parse`, which the
embedding does not distinguish) on the empty token stream succeeds
with the empty node list; and the top-level loop invokes the `node`
dispatcher until the cursor reaches end of input, concatenating the
dispatcher's results. -/
theorem c10_parse_loop :
    (∀ config, parse2 [] config = .ok [])
      ∧ (∀ flatten fuel, parseF flatten (fuel + 1) [] = (.ok [], ([] : List Tok)))
      ∧ (∀ flatten fuel st, st.isEmpty = false →
          parseF flatten (fuel + 1) st
            = match nodeF flatten fuel st with
              | (.error e, st') => (.error e, st')
              | (.ok ns, st') =>
                match parseF flatten fuel st' with
                | (.error e, st'') => (.error e, st'')
                | (.ok rest, st'') => (.ok (ns ++ rest), st'')) := by
  refine ⟨?_, ?_, ?_⟩
  · intro config
    cases config with
    | none => rfl
    | some b => cases b <;> rfl
  · intro flatten fuel
    simp [parseF]
  · intro flatten fuel st h
    simp only [parseF, h, Bool.false_eq_true, if_false]

/-- C10 (witness): the loop equation applied at the non-empty stream
holding the single literal `"x"`. -/
theorem c10_witness :
    parseF false 5 [Tok.lit "x"]
      = match nodeF false 4 [Tok.lit "x"] with
        | (.error e, st') => (.error e, st')
        | (.ok ns, st') =>
          match parseF false 4 st' with
          | (.error e, st'') => (.error e, st'')
          | (.ok rest, st'') => (.ok (ns ++ rest), st'') :=
  c10_parse_loop.2.2 false 4 [Tok.lit "x"] rfl

/-! ## C4 — node-name forms -/

theorem punctIdent_ok_len {c : Char} {st st' : List Tok} {vals : List String} {tr : Bool}
    (h : nodeNamePunctIdent c st = (.ok (vals, tr), st')) : 2 ≤ vals.length := by
  unfold nodeNamePunctIdent at h
  split at h
  rename_i vals₀ tr₀ st₀ heq
  split at h
  · rename_i hlen
    simp only [Prod.mk.injEq, Except.ok.injEq] at h
    obtain ⟨⟨h1, _⟩, _⟩ := h
    subst h1
    omega
  · exact absurd h (by simp)

/-- C4: `node_name` tries `Dash`, then `Colon`, then path-style, in
that order (first three conjuncts); the punctuated `Dash`/`Colon`
forms succeed only having consumed at least two identifier segments
and fail without consuming otherwise (next two conjuncts); and the
four representative inputs resolve as claimed: a bare identifier to a
one-segment `Path`, `data-foo` to a two-segment `Dash`, `on:click` to
a two-segment `Colon`, `some::path` to a two-segment `Path` (last
four conjuncts). -/
theorem c4_node_name_forms :
    (∀ st st' vals tr, nodeNamePunctIdent '-' st = (.ok (vals, tr), st') →
        nodeNameF st = (.ok (NodeName.dash vals tr), st'))
      ∧ (∀ st st₁ st' e vals tr, nodeNamePunctIdent '-' st = (.error e, st₁) →
          nodeNamePunctIdent ':' st₁ = (.ok (vals, tr), st') →
          nodeNameF st = (.ok (NodeName.colon vals tr), st'))
      ∧ (∀ st st₁ st₂ st' e₁ e₂ nm, nodeNamePunctIdent '-' st = (.error e₁, st₁) →
          nodeNamePunctIdent ':' st₁ = (.error e₂, st₂) →
          nodeNameModStyle st₂ = (.ok nm, st') →
          nodeNameF st = (.ok nm, st'))
      ∧ (∀ c st st' vals tr, nodeNamePunctIdent c st = (.ok (vals, tr), st') → 2 ≤ vals.length)
      ∧ (∀ c st st' e, nodeNamePunctIdent c st = (.error e, st') → st' = st)
      ∧ nodeNameF [Tok.ident "foo"] = (.ok (NodeName.path false ["foo"]), [])
      ∧ nodeNameF [Tok.ident "data", Tok.punct '-' false, Tok.ident "foo"]
          = (.ok (NodeName.dash ["data", "foo"] false), [])
      ∧ nodeNameF [Tok.ident "on", Tok.punct ':' false, Tok.ident "click"]
          = (.ok (NodeName.colon ["on", "click"] false), [])
      ∧ nodeNameF [Tok.ident "some", Tok.punct ':' true, Tok.punct ':' false, Tok.ident "path"]
          = (.ok (NodeName.path false ["some", "path"]), []) := by
  refine ⟨?_, ?_, ?_,
          fun _ _ _ _ _ h => punctIdent_ok_len h,
          fun _ _ _ _ h => punctIdent_error_eq h,
          rfl, rfl, rfl, rfl⟩
  · intro st st' vals tr h
    simp [nodeNameF, h]
  · intro st st₁ st' e vals tr h₁ h₂
    simp [nodeNameF, h₁, h₂]
  · intro st st₁ st₂ st' e₁ e₂ nm h₁ h₂ h₃
    simp [nodeNameF, h₁, h₂, h₃]

/-- C4 (witness): the theorem's conditional parts applied at concrete
inputs — the priority of `Dash` at `data-foo`, the segment bound at
the same input, and non-consumption of a failed `Colon` attempt at a
bare identifier. -/
theorem c4_witness :
    nodeNameF [Tok.ident "data", Tok.punct '-' false, Tok.ident "foo"]
        = (.ok (NodeName.dash ["data", "foo"] false), [])
      ∧ 2 ≤ (["data", "foo"] : List String).length
      ∧ ([Tok.ident "q"] : List Tok) = [Tok.ident "q"] :=
  ⟨c4_node_name_forms.1 [Tok.ident "data", Tok.punct '-' false, Tok.ident "foo"] []
      ["data", "foo"] false rfl,
   c4_node_name_forms.2.2.2.1 '-' [Tok.ident "data", Tok.punct '-' false, Tok.ident "foo"] []
      ["data", "foo"] false rfl,
   c4_node_name_forms.2.2.2.2.1 ':' [Tok.ident "q"] [Tok.ident "q"]
      "expected punctuated node name" rfl⟩

/-! ## C8 — path-style fallback requirements -/

theorem modStyleLoop_stop {segs : List String} {tr : Bool} {st : List Tok}
    (h : identHead st = false) : modStyleLoop segs tr st = ((segs, tr), st) := by
  cases st with
  | nil => rfl
  | cons t r =>
    cases t with
    | ident s => simp [identHead] at h
    | punct c j => rfl
    | lit s => rfl
    | group d i => rfl

theorem modStyleLoop_join :
    ∀ (ids : List String) (segs : List String) (tr : Bool) (rest : List Tok),
      ids ≠ [] → identHead rest = false →
      modStyleLoop segs tr
          (joinPath ids ++ Tok.punct ':' true :: Tok.punct ':' false :: rest)
        = ((segs ++ ids, true), rest) := by
  intro ids
  induction ids with
  | nil => intro _ _ _ h _; exact absurd rfl h
  | cons a tl ih =>
    intro segs tr rest _ hr
    cases tl with
    | nil =>
      show modStyleLoop (segs ++ [a]) true rest = ((segs ++ [a], true), rest)
      exact modStyleLoop_stop hr
    | cons b tl₂ =>
      show modStyleLoop (segs ++ [a]) true
          (joinPath (b :: tl₂) ++ Tok.punct ':' true :: Tok.punct ':' false :: rest)
        = ((segs ++ a :: b :: tl₂, true), rest)
      rw [ih (segs ++ [a]) true rest (by simp) hr]
      simp

/-- C8: in the path-style fallback, at least one identifier segment is
required — when no identifier follows the optional leading separator,
`node_name_mod_style` fails (with "expected path") without consuming —
and a trailing path separator with no following segment makes
`node_name_mod_style` fail with "expected path segment" and hence
`node_name` fail (with "invalid node name"), again without
consuming. -/
theorem c8_mod_style_requirements :
    (∀ st lead st₁, parseOptColon2 st = (lead, st₁) → identHead st₁ = false →
        nodeNameModStyle st = (.error "expected path", st))
      ∧ (∀ ids rest, ids ≠ [] → identHead rest = false →
          nodeNameModStyle (joinPath ids ++ Tok.punct ':' true :: Tok.punct ':' false :: rest)
            = (.error "expected path segment",
               joinPath ids ++ Tok.punct ':' true :: Tok.punct ':' false :: rest))
      ∧ (∀ ids rest, ids ≠ [] → identHead rest = false →
          nodeNameF (joinPath ids ++ Tok.punct ':' true :: Tok.punct ':' false :: rest)
            = (.error "invalid node name",
               joinPath ids ++ Tok.punct ':' true :: Tok.punct ':' false :: rest)) := by
  have hmod : ∀ ids rest, ids ≠ [] → identHead rest = false →
      nodeNameModStyle (joinPath ids ++ Tok.punct ':' true :: Tok.punct ':' false :: rest)
        = (.error "expected path segment",
           joinPath ids ++ Tok.punct ':' true :: Tok.punct ':' false :: rest) := by
    intro ids rest hne hr
    have hloop := modStyleLoop_join ids [] false rest hne hr
    cases ids with
    | nil => exact absurd rfl hne
    | cons a tl =>
      cases tl with
      | nil =>
        unfold nodeNameModStyle
        simp only [joinPath, List.cons_append, List.nil_append] at hloop ⊢
        simp only [parseOptColon2, hloop]
        simp
      | cons b tl₂ =>
        unfold nodeNameModStyle
        simp only [joinPath, List.cons_append] at hloop ⊢
        simp only [parseOptColon2, hloop]
        simp
  refine ⟨?_, hmod, ?_⟩
  · intro st lead st₁ h h₁
    unfold nodeNameModStyle
    simp only [h, modStyleLoop_stop h₁]
    simp
  · intro ids rest hne hr
    cases ids with
    | nil => exact absurd rfl hne
    | cons a tl =>
      have hm := hmod (a :: tl) rest hne hr
      cases tl with
      | nil =>
        simp only [joinPath, List.cons_append, List.nil_append] at hm ⊢
        unfold nodeNameF
        have hd : nodeNamePunctIdent '-'
            (Tok.ident a :: Tok.punct ':' true :: Tok.punct ':' false :: rest)
            = (.error "expected punctuated node name",
               Tok.ident a :: Tok.punct ':' true :: Tok.punct ':' false :: rest) := rfl
        have hc : nodeNamePunctIdent ':'
            (Tok.ident a :: Tok.punct ':' true :: Tok.punct ':' false :: rest)
            = (.error "expected punctuated node name",
               Tok.ident a :: Tok.punct ':' true :: Tok.punct ':' false :: rest) := rfl
        simp only [hd, hc, hm]
      | cons b tl₂ =>
        simp only [joinPath, List.cons_append] at hm ⊢
        unfold nodeNameF
        have hd : nodeNamePunctIdent '-'
            (Tok.ident a :: Tok.punct ':' true :: Tok.punct ':' false ::
              (joinPath (b :: tl₂) ++ Tok.punct ':' true :: Tok.punct ':' false :: rest))
            = (.error "expected punctuated node name",
               Tok.ident a :: Tok.punct ':' true :: Tok.punct ':' false ::
                 (joinPath (b :: tl₂) ++ Tok.punct ':' true :: Tok.punct ':' false :: rest)) := rfl
        have hc : nodeNamePunctIdent ':'
            (Tok.ident a :: Tok.punct ':' true :: Tok.punct ':' false ::
              (joinPath (b :: tl₂) ++ Tok.punct ':' true :: Tok.punct ':' false :: rest))
            = (.error "expected punctuated node name",
               Tok.ident a :: Tok.punct ':' true :: Tok.punct ':' false ::
                 (joinPath (b :: tl₂) ++ Tok.punct ':' true :: Tok.punct ':' false :: rest)) := rfl
        simp only [hd, hc, hm]

/-- C8 (witness): the theorem applied at `foo::` (a single segment with
a trailing separator) and at a lone literal (no segment at all). -/
theorem c8_witness :
    nodeNameF [Tok.ident "foo", Tok.punct ':' true, Tok.punct ':' false]
        = (.error "invalid node name",
           [Tok.ident "foo", Tok.punct ':' true, Tok.punct ':' false])
      ∧ nodeNameModStyle [Tok.lit "1"] = (.error "expected path", [Tok.lit "1"]) :=
  ⟨c8_mod_style_requirements.2.2 ["foo"] [] (by simp) rfl,
   c8_mod_style_requirements.1 [Tok.lit "1"] false [Tok.lit "1"] rfl rfl⟩

/-! ## C9 — trailing punctuated separators -/

theorem punctLoop_stop {c : Char} {vals : List String} {tr : Bool} {st : List Tok}
    (h : identHead st = false) : punctIdentLoop c vals tr st = ((vals, tr), st) := by
  cases st with
  | nil => rfl
  | cons t r =>
    cases t with
    | ident s => simp [identHead] at h
    | punct c j => rfl
    | lit s => rfl
    | group d i => rfl

theorem punctLoop_join :
    ∀ (ids : List String) (c : Char) (j jt : Bool) (vals : List String) (tr : Bool)
      (rest : List Tok),
      ids ≠ [] → identHead rest = false →
      punctIdentLoop c vals tr (joinPunct c j ids ++ Tok.punct c jt :: rest)
        = ((vals ++ ids, true), rest) := by
  intro ids
  induction ids with
  | nil => intro _ _ _ _ _ _ h _; exact absurd rfl h
  | cons a tl ih =>
    intro c j jt vals tr rest _ hr
    cases tl with
    | nil =>
      simp only [joinPunct, List.cons_append, List.nil_append]
      simp only [punctIdentLoop, if_pos rfl]
      exact punctLoop_stop hr
    | cons b tl₂ =>
      simp only [joinPunct, List.cons_append]
      simp only [punctIdentLoop, if_pos rfl]
      rw [ih c j jt (vals ++ [a]) true rest (by simp) hr]
      simp

/-- C9: a stream of two or more identifiers joined by `-` (resp. `:`)
with one more trailing `-` (resp. `:`) not followed by an identifier
parses to a `Dash` (resp. `Colon`) name holding those segments, the
trailing separator consumed as part of the name (it is recorded as the
`Punctuated` value's trailing punctuation), with the rest of the
stream untouched.  The separators' spacing is irrelevant. -/
theorem c9_trailing_separator :
    ∀ (ids : List String) (j jt : Bool) (rest : List Tok),
      2 ≤ ids.length → identHead rest = false →
      nodeNameF (joinPunct '-' j ids ++ Tok.punct '-' jt :: rest)
          = (.ok (NodeName.dash ids true), rest)
        ∧ nodeNameF (joinPunct ':' j ids ++ Tok.punct ':' jt :: rest)
          = (.ok (NodeName.colon ids true), rest) := by
  intro ids j jt rest hlen hr
  have hne : ids ≠ [] := by cases ids <;> simp_all
  have hgt : ids.length > 1 := hlen
  constructor
  · have hloop := punctLoop_join ids '-' j jt [] false rest hne hr
    unfold nodeNameF nodeNamePunctIdent
    simp only [hloop, List.nil_append, hgt, if_true]
  · match ids, hlen with
    | a :: b :: tl, _ =>
      have hdashfail : nodeNamePunctIdent '-'
          (Tok.ident a :: Tok.punct ':' j ::
            (joinPunct ':' j (b :: tl) ++ Tok.punct ':' jt :: rest))
          = (.error "expected punctuated node name",
             Tok.ident a :: Tok.punct ':' j ::
               (joinPunct ':' j (b :: tl) ++ Tok.punct ':' jt :: rest)) := rfl
      have hloop := punctLoop_join (a :: b :: tl) ':' j jt [] false rest (by simp) hr
      unfold nodeNameF
      simp only [joinPunct, List.cons_append] at hloop ⊢
      rw [hdashfail]
      unfold nodeNamePunctIdent
      simp only [hloop, List.nil_append]
      simp

/-- C9 (witness): the theorem applied at `foo-bar-` and
`foo:bar:`. -/
theorem c9_witness :
    nodeNameF [Tok.ident "foo", Tok.punct '-' false, Tok.ident "bar", Tok.punct '-' false]
        = (.ok (NodeName.dash ["foo", "bar"] true), [])
      ∧ nodeNameF [Tok.ident "foo", Tok.punct ':' false, Tok.ident "bar", Tok.punct ':' false]
        = (.ok (NodeName.colon ["foo", "bar"] true), []) :=
  c9_trailing_separator ["foo", "bar"] false false [] (by decide) rfl


/-! ## Consumption bounds (used to discharge the loop fuel bounds) -/

theorem punctLoop_length {c : Char} :
    ∀ (vals : List String) (tr : Bool) (st : List Tok) (vals' : List String) (tr' : Bool)
      (st' : List Tok),
      punctIdentLoop c vals tr st = ((vals', tr'), st') →
      st'.length + vals'.length ≤ st.length + vals.length ∧ vals.length ≤ vals'.length := by
  intro vals tr st
  induction vals, tr, st using punctIdentLoop.induct with
  | c => exact c
  | case1 vals trailing s joint rest ih =>
    intro vals' tr' st' h
    have hred : punctIdentLoop c vals trailing (Tok.ident s :: Tok.punct c joint :: rest)
        = punctIdentLoop c (vals ++ [s]) true rest := by
      simp [punctIdentLoop]
    rw [hred] at h
    have := ih vals' tr' st' h
    simp only [List.length_cons, List.length_append, List.length_singleton,
      List.length_nil] at this ⊢
    omega
  | case2 vals trailing s c' joint rest hne =>
    intro vals' tr' st' h
    simp only [punctIdentLoop, if_neg hne, Prod.mk.injEq] at h
    obtain ⟨⟨h1, _⟩, h3⟩ := h
    subst h1; subst h3
    simp only [List.length_cons, List.length_append, List.length_singleton, List.length_nil]
    omega
  | case3 vals trailing s rest hnp =>
    intro vals' tr' st' h
    have hred : punctIdentLoop c vals trailing (Tok.ident s :: rest)
        = ((vals ++ [s], false), rest) := by
      cases rest with
      | nil => rfl
      | cons t r =>
        cases t with
        | ident s₂ => rfl
        | punct c₂ j₂ => exact absurd rfl (hnp c₂ j₂ r)
        | lit s₂ => rfl
        | group d i => rfl
    rw [hred] at h
    simp only [Prod.mk.injEq] at h
    obtain ⟨⟨h1, _⟩, h3⟩ := h
    subst h1; subst h3
    simp only [List.length_cons, List.length_append, List.length_singleton, List.length_nil]
    omega
  | case4 t vals trailing hni =>
    intro vals' tr' st' h
    have hred : punctIdentLoop c vals trailing t = ((vals, trailing), t) := by
      cases t with
      | nil => rfl
      | cons t₂ r =>
        cases t₂ with
        | ident s₂ => exact absurd rfl (hni s₂ r)
        | punct c₂ j₂ => rfl
        | lit s₂ => rfl
        | group d i => rfl
    rw [hred] at h
    simp only [Prod.mk.injEq] at h
    obtain ⟨⟨h1, _⟩, h3⟩ := h
    subst h1; subst h3
    omega

theorem modStyleLoop_length :
    ∀ (segs : List String) (tr : Bool) (st : List Tok) (segs' : List String) (tr' : Bool)
      (st' : List Tok),
      modStyleLoop segs tr st = ((segs', tr'), st') →
      st'.length + segs'.length ≤ st.length + segs.length ∧ segs.length ≤ segs'.length := by
  intro segs tr st
  induction segs, tr, st using modStyleLoop.induct with
  | case1 segs trailing s joint rest ih =>
    intro segs' tr' st' h
    rw [modStyleLoop.eq_1] at h
    have := ih segs' tr' st' h
    simp only [List.length_cons, List.length_append, List.length_singleton,
      List.length_nil] at this ⊢
    omega
  | case2 segs trailing s rest hnp =>
    intro segs' tr' st' h
    rw [modStyleLoop.eq_2 segs trailing s rest hnp] at h
    simp only [Prod.mk.injEq] at h
    obtain ⟨⟨h1, _⟩, h3⟩ := h
    subst h1; subst h3
    simp only [List.length_cons, List.length_append, List.length_singleton, List.length_nil]
    omega
  | case3 segs trailing st hn1 hn2 =>
    intro segs' tr' st' h
    rw [modStyleLoop.eq_3 segs trailing st hn1 hn2] at h
    simp only [Prod.mk.injEq] at h
    obtain ⟨⟨h1, _⟩, h3⟩ := h
    subst h1; subst h3
    omega

theorem parseOptColon2_length {st : List Tok} :
    (parseOptColon2 st).2.length ≤ st.length := by
  unfold parseOptColon2
  split
  · exact Nat.le_succ_of_le (Nat.le_succ _)
  · exact Nat.le_refl _

theorem nodeNamePunctIdent_ok_consumes {c : Char} {st st' : List Tok} {v : List String × Bool}
    (h : nodeNamePunctIdent c st = (.ok v, st')) : st'.length < st.length := by
  unfold nodeNamePunctIdent at h
  split at h
  rename_i vals₀ tr₀ st₀ heq
  split at h
  · rename_i hlen
    simp only [Prod.mk.injEq, Except.ok.injEq] at h
    obtain ⟨_, h2⟩ := h
    subst h2
    have := punctLoop_length [] false st vals₀ tr₀ st₀ heq
    simp at this
    omega
  · exact absurd h (by simp)

theorem nodeNameModStyle_ok_consumes {st st' : List Tok} {nm : NodeName}
    (h : nodeNameModStyle st = (.ok nm, st')) : st'.length < st.length := by
  unfold nodeNameModStyle at h
  split at h
  rename_i lead st₁ hopt
  split at h
  rename_i segs₀ tr₀ st₂ hloop
  split at h
  · exact absurd h (by simp)
  · split at h
    · exact absurd h (by simp)
    · rename_i hseg htr
      simp only [Prod.mk.injEq, Except.ok.injEq] at h
      obtain ⟨_, h2⟩ := h
      subst h2
      have h3 := modStyleLoop_length [] false st₁ segs₀ tr₀ st₂ hloop
      have h4 : (parseOptColon2 st).2.length ≤ st.length := parseOptColon2_length
      rw [hopt] at h4
      simp only [] at h4
      simp only [List.length_nil, Nat.add_zero, Nat.zero_le, and_true] at h3
      have h5 : segs₀.length ≠ 0 := by
        intro h0
        exact hseg (List.isEmpty_iff_length_eq_zero.mpr h0)
      omega

theorem nodeNameF_ok_consumes {st st' : List Tok} {nm : NodeName}
    (h : nodeNameF st = (.ok nm, st')) : st'.length < st.length := by
  unfold nodeNameF at h
  split at h
  · rename_i heq
    simp only [Prod.mk.injEq, Except.ok.injEq] at h
    have h5 := nodeNamePunctIdent_ok_consumes heq
    have h6 : st'.length = _ := congrArg List.length h.2.symm
    omega
  · rename_i e₁ st₁ h₁
    split at h
    · rename_i heq
      simp only [Prod.mk.injEq, Except.ok.injEq] at h
      have h5 := nodeNamePunctIdent_ok_consumes heq
      have h6 : st'.length = _ := congrArg List.length h.2.symm
      have h7 : st₁.length = st.length := congrArg List.length (punctIdent_error_eq h₁)
      omega
    · rename_i e₂ st₂ h₂
      split at h
      · rename_i heq
        simp only [Prod.mk.injEq, Except.ok.injEq] at h
        have h5 := nodeNameModStyle_ok_consumes heq
        have h6 : st'.length = _ := congrArg List.length h.2.symm
        have h7 : st₁.length = st.length := congrArg List.length (punctIdent_error_eq h₁)
        have h8 : st₂.length = st₁.length := congrArg List.length (punctIdent_error_eq h₂)
        omega
      · exact absurd h (by simp)

theorem parseTokenTree_ok {st st' : List Tok} {t : Tok}
    (h : parseTokenTree st = (.ok t, st')) : st = t :: st' := by
  unfold parseTokenTree at h
  split at h <;> simp_all

theorem blockExprF_ok_consumes {st st' : List Tok} {v : Expr}
    (h : blockExprF st = (.ok v, st')) : st'.length < st.length := by
  unfold blockExprF at h
  split at h
  · rename_i inner st₀ htt
    simp only [Prod.mk.injEq, Except.ok.injEq] at h
    have h1 := congrArg List.length (parseTokenTree_ok htt)
    have h2 : st₀.length = st'.length := congrArg List.length h.2
    simp only [List.length_cons] at h1
    omega
  · exact absurd h (by simp)
  · exact absurd h (by simp)

theorem attributeF_ok_consumes {st st' : List Tok} {kv : NodeName × Option Expr}
    (h : attributeF st = (.ok kv, st')) : st'.length < st.length := by
  unfold attributeF atomic at h
  split at h
  case h_2 => exact absurd h (by simp)
  rename_i res st₀ hrun
  simp only [] at hrun
  simp only [Prod.mk.injEq, Except.ok.injEq] at h
  have hst : st₀.length = st'.length := congrArg List.length h.2
  split at hrun
  · exact absurd hrun (by simp)
  rename_i key st₁ hname
  have hkey : st₁.length < st.length := nodeNameF_ok_consumes hname
  split at hrun
  · rename_i eq st₂ heq
    have heq2 : st₂.length ≤ st₁.length := by
      unfold parseOptEq at heq
      split at heq <;> simp_all
    by_cases heqb : eq = true
    · subst heqb
      simp only [if_true] at hrun
      split at hrun
      · rename_i v st₃ hval
        simp only [Prod.mk.injEq, Except.ok.injEq] at hrun
        have h30 : st₃.length = st₀.length := congrArg List.length hrun.2
        split at hval
        · have h40 := blockExprF_ok_consumes hval
          omega
        · unfold exprParseF at hval
          split at hval
          · rename_i t st₄ htt
            simp only [Prod.mk.injEq, Except.ok.injEq] at hval
            have h40 : st₄.length = st₃.length := congrArg List.length hval.2
            have h41 := congrArg List.length (parseTokenTree_ok htt)
            simp only [List.length_cons] at h41
            omega
          · exact absurd hval (by simp)
      · exact absurd hrun (by simp)
    · simp only [heqb, if_false, Bool.false_eq_true] at hrun
      simp only [Prod.mk.injEq, Except.ok.injEq] at hrun
      have h20 : st₂.length = st₀.length := congrArg List.length hrun.2
      omega
  · exact absurd hrun (by simp)

/-! ## C5 — attribute-span parsing and error propagation -/

theorem attrLoopF_spec :
    ∀ (fuel : Nat) (nodes : List Node) (st : List Tok), st.length < fuel →
      ∃ l rem, attrLoopF fuel nodes st = (.ok l, rem)
        ∧ (rem.isEmpty = false → (attributeF rem).1.isOk = false) := by
  intro fuel
  induction fuel with
  | zero => intro nodes st h; omega
  | succ n ih =>
    intro nodes st hlen
    cases hat : attributeF st with
    | mk r stE =>
      cases r with
      | error e =>
        refine ⟨nodes, stE, ?_, ?_⟩
        · simp only [attrLoopF, hat]
        · intro _
          have : stE = st := attributeF_error_eq hat
          subst this
          rw [hat]
          rfl
      | ok kv =>
        obtain ⟨key, value⟩ := kv
        by_cases hemp : stE.isEmpty = true
        · refine ⟨nodes ++ [Node.mk (some key) value NodeType.attribute [] []], stE, ?_, ?_⟩
          · simp only [attrLoopF, hat, hemp, if_true]
          · intro habs
            rw [hemp] at habs
            exact absurd habs (by simp)
        · have hlt : stE.length < n := by
            have := attributeF_ok_consumes hat
            omega
          obtain ⟨l, rem, h1, h2⟩ :=
            ih (nodes ++ [Node.mk (some key) value NodeType.attribute [] []]) stE hlt
          refine ⟨l, rem, ?_, h2⟩
          simp only [attrLoopF, hat, hemp, if_false]
          exact h1

theorem attributesF_spec :
    ∀ st : List Tok, ∃ l rem, attributesF st = (.ok l, rem)
      ∧ (rem.isEmpty = false → (attributeF rem).1.isOk = false) := by
  intro st
  by_cases hemp : st.isEmpty = true
  · refine ⟨[], st, ?_, ?_⟩
    · simp only [attributesF, hemp, if_true]
    · intro habs
      rw [hemp] at habs
      exact absurd habs (by simp)
  · obtain ⟨l, rem, h1, h2⟩ := attrLoopF_spec (st.length + 1) [] st (by omega)
    refine ⟨l, rem, ?_, h2⟩
    simp only [attributesF, hemp, if_false]
    exact h1

/-- C5 (counterexample): in the span `b 1` the second pair is
malformed — a lone attempt at it fails with "invalid node name" — yet
`tag_open` on `<a b 1>` fails with syn's completeness error
"unexpected token", not with that underlying error: the pair's error
does not propagate out of `tag_open` unchanged. -/
theorem c5_counterexample :
    attributeF [Tok.lit "1"] = (.error "invalid node name", [Tok.lit "1"])
      ∧ tagOpenF [Tok.punct '<' false, Tok.ident "a", Tok.ident "b", Tok.lit "1",
                  Tok.punct '>' false]
        = (.error "unexpected token", [])
      ∧ "unexpected token" ≠ "invalid node name" :=
  ⟨rfl, rfl, by decide⟩

/-- C5 (amended): `attributes` repeatedly parses `(name, optional
"=" value)` pairs until the span is exhausted, and a malformed pair
does make the element fail — but not by propagating the pair's own
error.  The `while let Ok` loop discards that error and returns the
pairs parsed so far (the attribute parser itself never errors, first
conjunct), leaving the span not fully consumed; the `parse2`
completeness check then fails `tag_open` with "unexpected token"
(second conjunct).  A fully consumed span yields exactly the collected
pairs (third conjunct), and a failing span parse propagates out of
`tag_open` as-is (fourth conjunct). -/
theorem c5_attribute_span :
    (∀ span, (attributesF span).1.isOk = true)
      ∧ (∀ span nodes rem, attributesF span = (.ok nodes, rem) → rem.isEmpty = false →
          (attributeF rem).1.isOk = false
            ∧ runParser2 attributesF span = .error "unexpected token")
      ∧ (∀ span nodes, attributesF span = (.ok nodes, []) →
          runParser2 attributesF span = .ok nodes)
      ∧ (∀ st st₁ name st₂ sc span st₃ e, parsePunct '<' st = (.ok (), st₁) →
          nodeNameF st₁ = (.ok name, st₂) →
          tagOpenScanF (st₂.length + 1) [] st₂ = (.ok (sc, span), st₃) →
          runParser2 attributesF span = .error e →
          tagOpenF st = (.error e, st₃)) := by
  refine ⟨?_, ?_, ?_, ?_⟩
  · intro span
    obtain ⟨l, rem, h1, _⟩ := attributesF_spec span
    rw [h1]
    rfl
  · intro span nodes rem h hne
    obtain ⟨l, rem₀, h1, h2⟩ := attributesF_spec span
    rw [h] at h1
    simp only [Prod.mk.injEq, Except.ok.injEq] at h1
    obtain ⟨hl, hr⟩ := h1
    subst hl; subst hr
    refine ⟨h2 hne, ?_⟩
    unfold runParser2
    simp [h, hne]
  · intro span nodes h
    unfold runParser2
    simp [h]
  · intro st st₁ name st₂ sc span st₃ e h1 h2 h3 h4
    unfold tagOpenF
    simp only [h1, h2, h3, h4]

/-- C5 (witness): the amended theorem applied at the concrete span
`b 1` and the concrete open tag `<a b 1>`: the loop stops with the
pair `b` collected, the lone literal remains, and `tag_open` fails
with "unexpected token". -/
theorem c5_witness :
    (attributeF [Tok.lit "1"]).1.isOk = false
      ∧ runParser2 attributesF [Tok.ident "b", Tok.lit "1"] = .error "unexpected token"
      ∧ runParser2 attributesF [Tok.ident "b"]
          = .ok [Node.mk (some (NodeName.path false ["b"])) none NodeType.attribute [] []]
      ∧ tagOpenF [Tok.punct '<' false, Tok.ident "a", Tok.ident "b", Tok.lit "1",
                  Tok.punct '>' false]
        = (.error "unexpected token", []) := by
  have h2 := c5_attribute_span.2.1 [Tok.ident "b", Tok.lit "1"]
      [Node.mk (some (NodeName.path false ["b"])) none NodeType.attribute [] []]
      [Tok.lit "1"] rfl rfl
  refine ⟨h2.1, h2.2, ?_, ?_⟩
  · exact c5_attribute_span.2.2.1 [Tok.ident "b"]
      [Node.mk (some (NodeName.path false ["b"])) none NodeType.attribute [] []] rfl
  · exact c5_attribute_span.2.2.2 [Tok.punct '<' false, Tok.ident "a", Tok.ident "b",
        Tok.lit "1", Tok.punct '>' false]
      [Tok.ident "a", Tok.ident "b", Tok.lit "1", Tok.punct '>' false]
      (NodeName.path false ["a"])
      [Tok.ident "b", Tok.lit "1", Tok.punct '>' false] false
      [Tok.ident "b", Tok.lit "1"] [] "unexpected token" rfl rfl rfl h2.2

/-! ## C7 — per-type field invariants -/

theorem nodesOkB_cons {n : Node} {l : List Node} :
    nodesOkB (n :: l) = (nodeOkB n && nodesOkB l) := rfl

theorem nodesOkB_append {a b : List Node} :
    nodesOkB (a ++ b) = (nodesOkB a && nodesOkB b) := by
  induction a with
  | nil => simp [nodesOkB]
  | cons n rest ih => simp [nodesOkB_cons, ih, Bool.and_assoc]

theorem attrsOkB_append {a b : List Node} :
    attrsOkB (a ++ b) = (attrsOkB a && attrsOkB b) := by
  induction a with
  | nil => simp [attrsOkB]
  | cons n rest ih =>
    show ((n.node_type = NodeType.attribute) && nodeOkB n && attrsOkB (rest ++ b))
        = ((n.node_type = NodeType.attribute) && nodeOkB n && attrsOkB rest && attrsOkB b)
    rw [ih]
    simp [Bool.and_assoc]

theorem textF_ok_shape {st st' : List Tok} {n : Node}
    (h : textF st = (.ok n, st')) : nodeOkB n = true ∧ n.children = [] := by
  unfold textF at h
  split at h
  · simp only [Prod.mk.injEq, Except.ok.injEq] at h
    rw [← h.1]
    exact ⟨rfl, rfl⟩
  · exact absurd h (by simp)

theorem blockF_ok_shape {st st' : List Tok} {n : Node}
    (h : blockF st = (.ok n, st')) : nodeOkB n = true ∧ n.children = [] := by
  unfold blockF at h
  split at h
  · simp only [Prod.mk.injEq, Except.ok.injEq] at h
    rw [← h.1]
    exact ⟨rfl, rfl⟩
  · exact absurd h (by simp)

theorem flattenStep_ok {flatten : Bool} {nd : Node} (h : nodeOkB nd = true) :
    nodesOkB (flattenStep flatten nd) = true := by
  obtain ⟨n, v, t, a, c⟩ := nd
  cases flatten with
  | false =>
    show nodesOkB [Node.mk n v t a c] = true
    simp [nodesOkB_cons, nodesOkB, h]
  | true =>
    show nodesOkB (Node.mk n v t a [] :: c) = true
    rw [nodesOkB_cons]
    cases t <;> simp_all [nodeOkB, nodesOkB, List.isEmpty_iff]

theorem attrLoopF_attrsOk :
    ∀ (fuel : Nat) (nodes : List Node) (st : List Tok) (l : List Node) (rem : List Tok),
      attrsOkB nodes = true → attrLoopF fuel nodes st = (.ok l, rem) → attrsOkB l = true := by
  intro fuel
  induction fuel with
  | zero => intro nodes st l rem _ h; exact absurd h (by simp [attrLoopF])
  | succ n ih =>
    intro nodes st l rem hok h
    simp only [attrLoopF] at h
    split at h
    · simp only [Prod.mk.injEq, Except.ok.injEq] at h
      rw [← h.1]; exact hok
    · rename_i key value st₁ hat
      have hok' : attrsOkB (nodes ++ [Node.mk (some key) value NodeType.attribute [] []])
          = true := by
        rw [attrsOkB_append, hok]
        rfl
      split at h
      · simp only [Prod.mk.injEq, Except.ok.injEq] at h
        rw [← h.1]; exact hok'
      · exact ih _ st₁ l rem hok' h

theorem runAttrs_ok {span : List Tok} {attrs : List Node}
    (h : runParser2 attributesF span = .ok attrs) : attrsOkB attrs = true := by
  unfold runParser2 at h
  split at h
  · rename_i a st hrun
    split at h
    · simp only [Except.ok.injEq] at h
      subst h
      unfold attributesF at hrun
      split at hrun
      · simp only [Prod.mk.injEq, Except.ok.injEq] at hrun
        rw [← hrun.1]; rfl
      · exact attrLoopF_attrsOk _ [] span a st rfl hrun
    · exact absurd h (by simp)
  · exact absurd h (by simp)

theorem tagOpenF_attrs_ok {st st' : List Tok} {tag : Tag}
    (h : tagOpenF st = (.ok tag, st')) : attrsOkB tag.attributes = true := by
  unfold tagOpenF at h
  split at h
  · exact absurd h (by simp)
  · split at h
    · exact absurd h (by simp)
    · split at h
      · exact absurd h (by simp)
      · split at h
        · exact absurd h (by simp)
        · rename_i attrs hattrs
          simp only [Prod.mk.injEq, Except.ok.injEq] at h
          rw [← h.1]
          exact runAttrs_ok hattrs

theorem invariants_fuel :
    ∀ fuel : Nat,
      (∀ flatten st l st', nodeF flatten fuel st = (.ok l, st') → nodesOkB l = true)
        ∧ (∀ flatten name acc st l st', nodesOkB acc = true →
            childLoopF flatten fuel name acc st = (.ok l, st') → nodesOkB l = true)
        ∧ (∀ flatten st nd st', elementF flatten fuel st = (.ok nd, st') →
            nodeOkB nd = true) := by
  intro fuel
  induction fuel with
  | zero =>
    refine ⟨?_, ?_, ?_⟩ <;> intro flatten
    · intro st l st' h; exact absurd h (by simp [nodeF])
    · intro name acc st l st' _ h; exact absurd h (by simp [childLoopF])
    · intro st nd st' h; exact absurd h (by simp [elementF])
  | succ n ih =>
    obtain ⟨ihN, ihC, ihE⟩ := ih
    refine ⟨?_, ?_, ?_⟩
    · intro flatten st l st' h
      simp only [nodeF] at h
      split at h
      · rename_i nd st₁ ht
        simp only [Prod.mk.injEq, Except.ok.injEq] at h
        rw [← h.1]
        exact flattenStep_ok (textF_ok_shape ht).1
      · split at h
        · rename_i nd st₁ hb
          simp only [Prod.mk.injEq, Except.ok.injEq] at h
          rw [← h.1]
          exact flattenStep_ok (blockF_ok_shape hb).1
        · split at h
          · rename_i nd st₁ he
            simp only [Prod.mk.injEq, Except.ok.injEq] at h
            rw [← h.1]
            exact flattenStep_ok (ihE flatten _ nd st₁ he)
          · exact absurd h (by simp)
    · intro flatten name acc st l st' hacc h
      simp only [childLoopF] at h
      split at h
      · exact absurd h (by simp)
      · simp only [Prod.mk.injEq, Except.ok.injEq] at h
        rw [← h.1]; exact hacc
      · rename_i st₁ hhc
        split at h
        · exact absurd h (by simp)
        · rename_i ns st₂ hn
          have hns := ihN flatten st₁ ns st₂ hn
          exact ihC flatten name (acc ++ ns) st₂ l st'
            (by rw [nodesOkB_append, hacc, hns]; rfl) h
    · intro flatten st nd st' h
      simp only [elementF] at h
      split at h
      · exact absurd h (by simp)
      · split at h
        · exact absurd h (by simp)
        · rename_i tag st₁ hopen
          have hattrs := tagOpenF_attrs_ok hopen
          split at h
          · simp only [Prod.mk.injEq, Except.ok.injEq] at h
            rw [← h.1]
            simp [nodeOkB, hattrs, nodesOkB]
          · split at h
            · exact absurd h (by simp)
            · rename_i children st₂ hch
              split at h
              · exact absurd h (by simp)
              · simp only [Prod.mk.injEq, Except.ok.injEq] at h
                rw [← h.1]
                have hchok := ihC flatten tag.name [] st₁ children st₂ rfl hch
                simp [nodeOkB, hattrs, hchok]

theorem parseF_nodesOk :
    ∀ (fuel : Nat) (flatten : Bool) (st : List Tok) (l : List Node) (st' : List Tok),
      parseF flatten fuel st = (.ok l, st') → nodesOkB l = true := by
  intro fuel
  induction fuel with
  | zero => intro flatten st l st' h; exact absurd h (by simp [parseF])
  | succ n ih =>
    intro flatten st l st' h
    simp only [parseF] at h
    split at h
    · simp only [Prod.mk.injEq, Except.ok.injEq] at h
      rw [← h.1]; rfl
    · split at h
      · exact absurd h (by simp)
      · rename_i ns st₁ hn
        split at h
        · exact absurd h (by simp)
        · rename_i rest st₂ hrest
          simp only [Prod.mk.injEq, Except.ok.injEq] at h
          rw [← h.1, nodesOkB_append, (invariants_fuel n).1 flatten st ns st₁ hn,
            ih flatten st₁ rest st₂ hrest]
          rfl

/-- C7: every node of any successful parse satisfies the per-type
field invariants of the data model: `Text`/`Block` nodes carry no
name, a value, and empty attributes and children; `Attribute` nodes a
name, an optional value and empty attributes and children; `Element`
nodes a name, no value, only well-formed `Attribute` nodes in
`attributes`, and (well-formed) nodes in `children`. -/
theorem c7_node_invariants :
    ∀ (tokens : List Tok) (config : Option Bool) (l : List Node),
      parse2 tokens config = .ok l → nodesOkB l = true := by
  intro tokens config l h
  unfold parse2 runParser2 at h
  split at h
  · rename_i a st hrun
    split at h
    · simp only [Except.ok.injEq] at h
      subst h
      exact parseF_nodesOk _ _ tokens a st hrun
    · exact absurd h (by simp)
  · exact absurd h (by simp)

/-- C7 (witness): the theorem applied to the parse of
`<a>"x"</a><b {y} />`, whose result satisfies the invariants. -/
theorem c7_witness :
    nodesOkB [Node.mk (some (NodeName.path false ["a"])) none NodeType.element []
        [Node.mk none (some (Expr.lit "x")) NodeType.text [] []],
      Node.mk (some (NodeName.path false ["b"])) none NodeType.element
        [Node.mk (some (NodeName.path false ["c"])) none NodeType.attribute [] []] []]
      = true :=
  c7_node_invariants
    [Tok.punct '<' false, Tok.ident "a", Tok.punct '>' false, Tok.lit "x",
     Tok.punct '<' false, Tok.punct '/' false, Tok.ident "a", Tok.punct '>' false,
     Tok.punct '<' false, Tok.ident "b", Tok.ident "c", Tok.punct '/' false,
     Tok.punct '>' false] none
    [Node.mk (some (NodeName.path false ["a"])) none NodeType.element []
        [Node.mk none (some (Expr.lit "x")) NodeType.text [] []],
      Node.mk (some (NodeName.path false ["b"])) none NodeType.element
        [Node.mk (some (NodeName.path false ["c"])) none NodeType.attribute [] []] []]
    rfl

/-! ## C2 — flatten mode is the pre-order traversal of nesting mode -/

theorem preorder_nil : preorder [] = [] := by
  simp [preorder]

theorem preorder_cons {n : Option NodeName} {v : Option Expr} {t : NodeType}
    {a c rest : List Node} :
    preorder (Node.mk n v t a c :: rest)
      = Node.mk n v t a [] :: (preorder c ++ preorder rest) := by
  simp [preorder]

theorem preorder_append : ∀ {x y : List Node}, preorder (x ++ y) = preorder x ++ preorder y := by
  intro x
  induction x with
  | nil => intro y; simp [preorder_nil]
  | cons hd rest ih =>
    intro y
    obtain ⟨n, v, t, a, c⟩ := hd
    simp [preorder_cons, ih, List.append_assoc]

theorem childrenEmptyAll_append {x y : List Node} :
    childrenEmptyAll (x ++ y) = (childrenEmptyAll x && childrenEmptyAll y) := by
  induction x with
  | nil => simp [childrenEmptyAll]
  | cons hd rest ih =>
    obtain ⟨n, v, t, a, c⟩ := hd
    show (c.isEmpty && childrenEmptyAll (rest ++ y))
        = (c.isEmpty && childrenEmptyAll rest && childrenEmptyAll y)
    rw [ih, Bool.and_assoc]

theorem preorder_children_empty : ∀ l : List Node, childrenEmptyAll (preorder l) = true := by
  intro l
  induction l using preorder.induct with
  | case1 => simp [preorder_nil, childrenEmptyAll]
  | case2 n v t a c rest ihc ihr =>
    rw [preorder_cons]
    show (List.isEmpty [] && childrenEmptyAll (preorder c ++ preorder rest)) = true
    rw [childrenEmptyAll_append, ihc, ihr]
    rfl

theorem preorder_length_count : ∀ l : List Node, (preorder l).length = countNodes l := by
  intro l
  induction l using preorder.induct with
  | case1 => simp [preorder_nil, countNodes]
  | case2 n v t a c rest ihc ihr =>
    rw [preorder_cons]
    show (preorder c ++ preorder rest).length + 1 = countNodes (Node.mk n v t a c :: rest)
    rw [List.length_append, ihc, ihr]
    simp only [countNodes]
    omega

theorem flattenStep_preorder {n : Option NodeName} {v : Option Expr} {t : NodeType}
    {a c : List Node} :
    flattenStep true (Node.mk n v t a (preorder c))
      = preorder (flattenStep false (Node.mk n v t a c)) := by
  show Node.mk n v t a [] :: preorder c = preorder [Node.mk n v t a c]
  rw [preorder_cons, preorder_nil, List.append_nil]

theorem flatten_fuel :
    ∀ fuel : Nat,
      (∀ st, nodeF true fuel st = mapPreL (nodeF false fuel st))
        ∧ (∀ name acc st, childLoopF true fuel name (preorder acc) st
            = mapPreL (childLoopF false fuel name acc st))
        ∧ (∀ st, elementF true fuel st = mapPreE (elementF false fuel st)) := by
  intro fuel
  induction fuel with
  | zero =>
    refine ⟨?_, ?_, ?_⟩
    · intro st; rfl
    · intro name acc st; rfl
    · intro st; rfl
  | succ n ih =>
    obtain ⟨ihN, ihC, ihE⟩ := ih
    refine ⟨?_, ?_, ?_⟩
    · intro st
      simp only [nodeF]
      cases ht : textF st with
      | mk rt st₁ =>
        cases rt with
        | ok nd =>
          try simp only [ht]
          have hce := (textF_ok_shape ht).2
          obtain ⟨n₀, v₀, t₀, a₀, c₀⟩ := nd
          simp only [Node.children] at hce
          subst hce
          have h0 := @flattenStep_preorder n₀ v₀ t₀ a₀ []
          rw [preorder_nil] at h0
          simp only [mapPreL, h0]
        | error e =>
          try simp only [ht]
          cases hb : blockF st₁ with
          | mk rb st₂ =>
            cases rb with
            | ok nd =>
              try simp only [hb]
              have hce := (blockF_ok_shape hb).2
              obtain ⟨n₀, v₀, t₀, a₀, c₀⟩ := nd
              simp only [Node.children] at hce
              subst hce
              have h0 := @flattenStep_preorder n₀ v₀ t₀ a₀ []
              rw [preorder_nil] at h0
              simp only [mapPreL, h0]
            | error e₂ =>
              try simp only [hb]
              rw [ihE st₂]
              cases he : elementF false n st₂ with
              | mk re st₃ =>
                cases re with
                | ok nd =>
                  try simp only [he]
                  obtain ⟨n₀, v₀, t₀, a₀, c₀⟩ := nd
                  simp only [mapPreE, mapPreL]
                  rw [flattenStep_preorder]
                | error e₃ =>
                  try simp only [he]
                  simp only [mapPreE, mapPreL]
    · intro name acc st
      simp only [childLoopF]
      cases hhc : hasChildrenF name st with
      | mk rh st₁ =>
        cases rh with
        | error e =>
          try simp only [hhc]
          simp only [mapPreL]
        | ok b =>
          cases b with
          | false =>
            try simp only [hhc]
            simp only [mapPreL]
          | true =>
            try simp only [hhc]
            rw [ihN st₁]
            cases hn : nodeF false n st₁ with
            | mk rn st₂ =>
              cases rn with
              | error e =>
                try simp only [hn]
                simp only [mapPreL]
              | ok ns =>
                try simp only [hn]
                simp only [mapPreL]
                rw [← preorder_append]
                exact ihC name (acc ++ ns) st₂
    · intro st
      simp only [elementF]
      by_cases hcl : (tagCloseF st).1.isOk = true
      · simp only [hcl, if_true, mapPreE]
      · simp only [hcl, if_false, Bool.false_eq_true]
        cases hop : tagOpenF st with
        | mk ro st₁ =>
          cases ro with
          | error e =>
            try simp only [hop]
            simp only [mapPreE]
          | ok tag =>
            try simp only [hop]
            by_cases hsc : tag.selfclosing = true
            · simp only [hsc, if_true, mapPreE, preorder_nil]
            · simp only [hsc, if_false, Bool.false_eq_true]
              have hstart := ihC tag.name [] st₁
              rw [preorder_nil] at hstart
              rw [hstart]
              cases hch : childLoopF false n tag.name [] st₁ with
              | mk rc st₂ =>
                cases rc with
                | error e =>
                  try simp only [hch]
                  simp only [mapPreL, mapPreE]
                | ok children =>
                  try simp only [hch]
                  simp only [mapPreL]
                  cases htc : tagCloseF st₂ with
                  | mk rt st₃ =>
                    cases rt with
                    | error e =>
                      try simp only [htc]
                      simp only [mapPreE]
                    | ok nm =>
                      try simp only [htc]
                      simp only [mapPreE]

theorem parseF_flatten :
    ∀ (fuel : Nat) (st : List Tok),
      parseF true fuel st = mapPreL (parseF false fuel st) := by
  intro fuel
  induction fuel with
  | zero => intro st; rfl
  | succ n ih =>
    intro st
    simp only [parseF]
    by_cases hemp : st.isEmpty = true
    · simp only [hemp, if_true, mapPreL, preorder_nil]
    · simp only [hemp, if_false, Bool.false_eq_true]
      rw [(flatten_fuel n).1 st]
      cases hn : nodeF false n st with
      | mk rn st₁ =>
        cases rn with
        | error e =>
          try simp only [hn]
          simp only [mapPreL]
        | ok ns =>
          try simp only [hn]
          simp only [mapPreL]
          rw [ih st₁]
          cases hp : parseF false n st₁ with
          | mk rp st₂ =>
            cases rp with
            | error e =>
              try simp only [hp]
              simp only [mapPreL]
            | ok rest =>
              try simp only [hp]
              simp only [mapPreL, preorder_append]

/-- C2: for every input, parsing with flatten enabled returns exactly
the pre-order (document-order) traversal of the forest that parsing
with flatten disabled returns (first conjunct; failures agree, so in
particular the equation covers every well-formed input); every node of
a pre-order traversal has an empty `children` field (second conjunct);
and the traversal's length is the total number of nodes of the nested
forest — children counted recursively, attributes left in place inside
their nodes (third conjunct). -/
theorem c2_flatten_is_preorder :
    (∀ tokens, parse2 tokens (some true) = (parse2 tokens (some false)).map preorder)
      ∧ (∀ l, childrenEmptyAll (preorder l) = true)
      ∧ (∀ l, (preorder l).length = countNodes l) := by
  refine ⟨?_, preorder_children_empty, preorder_length_count⟩
  intro tokens
  unfold parse2 runParser2
  simp only [Option.getD_some]
  rw [parseF_flatten (topFuel tokens) tokens]
  cases hp : parseF false (topFuel tokens) tokens with
  | mk rp st =>
    cases rp with
    | error e =>
      try simp only [hp]
      simp only [mapPreL, Except.map]
    | ok l =>
      try simp only [hp]
      simp only [mapPreL]
      by_cases hemp : st.isEmpty = true
      · simp only [hemp, if_true, Except.map]
      · simp only [hemp, if_false, Bool.false_eq_true, Except.map]

/-! ## C6 — self-closing versus explicitly closed elements -/

theorem parseOptSlash_clean {t : Tok} {rest : List Tok} (h : cleanTok t = true) :
    parseOptSlash (t :: rest) = (.ok false, t :: rest) := by
  cases t with
  | ident s => rfl
  | lit s => rfl
  | group d i => rfl
  | punct c j =>
    have hc : ¬ c = '/' := by
      intro he; subst he; simp [cleanTok] at h
    unfold parseOptSlash
    split
    · rename_i joint rest₀ heq
      simp_all
    · rfl

theorem parsePunctGt_clean {t : Tok} {rest : List Tok} (h : cleanTok t = true) :
    parsePunct '>' (t :: rest) = (.error expectedPunctMsg, t :: rest) := by
  cases t with
  | ident s => rfl
  | lit s => rfl
  | group d i => rfl
  | punct c j =>
    have hc : ¬ c = '>' := by
      intro he; subst he; simp [cleanTok] at h
    simp [parsePunct, hc]

theorem tagOpenEndF_clean {t : Tok} {rest : List Tok} (h : cleanTok t = true) :
    tagOpenEndF (t :: rest) = (.error expectedPunctMsg, t :: rest) := by
  unfold tagOpenEndF
  simp only [parseOptSlash_clean h, parsePunctGt_clean h]

theorem scan_selfclosing :
    ∀ (body : List Tok) (fuel : Nat) (acc : List Tok) (j₁ j₂ : Bool) (rest : List Tok),
      body.all cleanTok = true → body.length < fuel →
      tagOpenScanF fuel acc (body ++ Tok.punct '/' j₁ :: Tok.punct '>' j₂ :: rest)
        = (.ok (true, acc ++ body), rest) := by
  intro body
  induction body with
  | nil =>
    intro fuel acc j₁ j₂ rest _ hf
    obtain ⟨f, rfl⟩ : ∃ f, fuel = f + 1 := ⟨fuel - 1, by omega⟩
    simp only [List.nil_append, List.append_nil]
    rfl
  | cons t body' ih =>
    intro fuel acc j₁ j₂ rest hclean hf
    obtain ⟨f, rfl⟩ : ∃ f, fuel = f + 1 := ⟨fuel - 1, by omega⟩
    simp only [List.all_cons, Bool.and_eq_true] at hclean
    simp only [List.cons_append, tagOpenScanF, tagOpenEndF_clean hclean.1, parseTokenTree]
    rw [ih f (acc ++ [t]) j₁ j₂ rest hclean.2 (by simp at hf ⊢; omega)]
    simp

theorem scan_open :
    ∀ (body : List Tok) (fuel : Nat) (acc : List Tok) (j : Bool) (rest : List Tok),
      body.all cleanTok = true → body.length < fuel →
      tagOpenScanF fuel acc (body ++ Tok.punct '>' j :: rest)
        = (.ok (false, acc ++ body), rest) := by
  intro body
  induction body with
  | nil =>
    intro fuel acc j rest _ hf
    obtain ⟨f, rfl⟩ : ∃ f, fuel = f + 1 := ⟨fuel - 1, by omega⟩
    simp only [List.nil_append, List.append_nil]
    rfl
  | cons t body' ih =>
    intro fuel acc j rest hclean hf
    obtain ⟨f, rfl⟩ : ∃ f, fuel = f + 1 := ⟨fuel - 1, by omega⟩
    simp only [List.all_cons, Bool.and_eq_true] at hclean
    simp only [List.cons_append, tagOpenScanF, tagOpenEndF_clean hclean.1, parseTokenTree]
    rw [ih f (acc ++ [t]) j rest hclean.2 (by simp at hf ⊢; omega)]
    simp

theorem parsePunct_hit {c : Char} {j : Bool} {rest : List Tok} :
    parsePunct c (Tok.punct c j :: rest) = (.ok (), rest) := by
  simp [parsePunct]

theorem nodeNameF_ok_head {st st' : List Tok} {nm : NodeName}
    (h : nodeNameF st = (.ok nm, st')) :
    identHead st = true ∨ (∃ j r, st = Tok.punct ':' true :: Tok.punct ':' j :: r) := by
  by_cases h1 : identHead st = true
  · exact Or.inl h1
  · right
    have h1' : identHead st = false := by simpa using h1
    have hd : nodeNamePunctIdent '-' st = (.error "expected punctuated node name", st) := by
      unfold nodeNamePunctIdent
      rw [punctLoop_stop h1']
      simp
    have hc : nodeNamePunctIdent ':' st = (.error "expected punctuated node name", st) := by
      unfold nodeNamePunctIdent
      rw [punctLoop_stop h1']
      simp
    unfold nodeNameF at h
    simp only [hd, hc] at h
    by_cases hshape : ∃ j r, st = Tok.punct ':' true :: Tok.punct ':' j :: r
    · exact hshape
    · exfalso
      have hopt : parseOptColon2 st = (false, st) := by
        apply parseOptColon2.eq_2
        intro j r he
        exact hshape ⟨j, r, he⟩
      have hmod : nodeNameModStyle st = (.error "expected path", st) := by
        unfold nodeNameModStyle
        simp only [hopt, modStyleLoop_stop h1']
        simp
      simp [hmod] at h

theorem parseSlash_fail_of_head {st : List Tok}
    (h : identHead st = true ∨ (∃ j r, st = Tok.punct ':' true :: Tok.punct ':' j :: r)) :
    parsePunct '/' st = (.error expectedPunctMsg, st) := by
  rcases h with h | ⟨j, r, rfl⟩
  · cases st with
    | nil => simp [identHead] at h
    | cons t r =>
      cases t with
      | ident s => rfl
      | punct c jj => simp [identHead] at h
      | lit s => simp [identHead] at h
      | group d i => simp [identHead] at h
  · rfl

/-- The token stream of a self-closing element `<name body />`
followed by `rest`. -/
def selfClosingToks (nmToks body rest : List Tok) : List Tok :=
  Tok.punct '<' false ::
    (nmToks ++ (body ++ Tok.punct '/' false :: Tok.punct '>' false :: rest))

/-- The token stream of the explicitly closed empty element
`<name body ></name>` followed by `rest`. -/
def openCloseToks (nmToks body rest : List Tok) : List Tok :=
  Tok.punct '<' false ::
    (nmToks ++ (body ++ Tok.punct '>' false :: Tok.punct '<' false ::
      Tok.punct '/' false :: (nmToks ++ Tok.punct '>' false :: rest)))

/-- C6: for every name (token form `nmToks`, parsed value `nm`) and
attribute span `body` (no stray `/` or `>` token, so that the span is
captured whole), the element rule treats `<nm body />` and
`<nm body ></nm>` identically: when the captured span fails to parse
as attributes, both fail with the very same error; otherwise both
succeed with the very same `Element` node — name `nm`, the span's
attributes, value `None`, no children — leaving the same remaining
stream. -/
theorem c6_selfclosing_equiv :
    ∀ (flatten : Bool) (fuel : Nat) (nm : NodeName) (nmToks body rest : List Tok),
      body.all cleanTok = true →
      nodeNameF (nmToks ++ (body ++ Tok.punct '/' false :: Tok.punct '>' false :: rest))
        = (.ok nm, body ++ Tok.punct '/' false :: Tok.punct '>' false :: rest) →
      nodeNameF (nmToks ++ (body ++ Tok.punct '>' false :: Tok.punct '<' false ::
          Tok.punct '/' false :: (nmToks ++ Tok.punct '>' false :: rest)))
        = (.ok nm, body ++ Tok.punct '>' false :: Tok.punct '<' false ::
            Tok.punct '/' false :: (nmToks ++ Tok.punct '>' false :: rest)) →
      nodeNameF (nmToks ++ Tok.punct '>' false :: rest)
        = (.ok nm, Tok.punct '>' false :: rest) →
      (∃ e, runParser2 attributesF body = .error e
          ∧ elementF flatten (fuel + 2) (selfClosingToks nmToks body rest)
              = (.error e, selfClosingToks nmToks body rest)
          ∧ elementF flatten (fuel + 2) (openCloseToks nmToks body rest)
              = (.error e, openCloseToks nmToks body rest))
        ∨ (∃ attrs, runParser2 attributesF body = .ok attrs
            ∧ elementF flatten (fuel + 2) (selfClosingToks nmToks body rest)
                = (.ok (Node.mk (some nm) none NodeType.element attrs []), rest)
            ∧ elementF flatten (fuel + 2) (openCloseToks nmToks body rest)
                = (.ok (Node.mk (some nm) none NodeType.element attrs []), rest)) := by
  intro flatten fuel nm nmToks body rest hclean h1 h2 h3
  -- the stray-close precheck fails on both streams
  have htc1 : tagCloseF (selfClosingToks nmToks body rest)
      = (.error expectedPunctMsg,
         nmToks ++ (body ++ Tok.punct '/' false :: Tok.punct '>' false :: rest)) := by
    unfold tagCloseF selfClosingToks
    simp only [parsePunct_hit, parseSlash_fail_of_head (nodeNameF_ok_head h1)]
  have htc2 : tagCloseF (openCloseToks nmToks body rest)
      = (.error expectedPunctMsg,
         nmToks ++ (body ++ Tok.punct '>' false :: Tok.punct '<' false ::
           Tok.punct '/' false :: (nmToks ++ Tok.punct '>' false :: rest))) := by
    unfold tagCloseF openCloseToks
    simp only [parsePunct_hit, parseSlash_fail_of_head (nodeNameF_ok_head h2)]
  have hok1 : (tagCloseF (selfClosingToks nmToks body rest)).1.isOk = false := by
    rw [htc1]; rfl
  have hok2 : (tagCloseF (openCloseToks nmToks body rest)).1.isOk = false := by
    rw [htc2]; rfl
  -- the span scans
  have hscan1 : tagOpenScanF
      ((body ++ Tok.punct '/' false :: Tok.punct '>' false :: rest).length + 1) []
      (body ++ Tok.punct '/' false :: Tok.punct '>' false :: rest)
      = (.ok (true, body), rest) := by
    have := scan_selfclosing body
      ((body ++ Tok.punct '/' false :: Tok.punct '>' false :: rest).length + 1) []
      false false rest hclean (by simp; omega)
    simpa using this
  have hscan2 : tagOpenScanF
      ((body ++ Tok.punct '>' false :: Tok.punct '<' false :: Tok.punct '/' false ::
        (nmToks ++ Tok.punct '>' false :: rest)).length + 1) []
      (body ++ Tok.punct '>' false :: Tok.punct '<' false :: Tok.punct '/' false ::
        (nmToks ++ Tok.punct '>' false :: rest))
      = (.ok (false, body), Tok.punct '<' false :: Tok.punct '/' false ::
          (nmToks ++ Tok.punct '>' false :: rest)) := by
    have := scan_open body
      ((body ++ Tok.punct '>' false :: Tok.punct '<' false :: Tok.punct '/' false ::
        (nmToks ++ Tok.punct '>' false :: rest)).length + 1) []
      false (Tok.punct '<' false :: Tok.punct '/' false ::
        (nmToks ++ Tok.punct '>' false :: rest)) hclean (by simp; omega)
    simpa using this
  -- the close tag of the second stream
  have htcR : tagCloseF (Tok.punct '<' false :: Tok.punct '/' false ::
      (nmToks ++ Tok.punct '>' false :: rest)) = (.ok nm, rest) := by
    unfold tagCloseF
    simp only [parsePunct_hit, h3]
  cases hattrs : runParser2 attributesF body with
  | error e =>
    left
    refine ⟨e, rfl, ?_, ?_⟩
    · simp only [elementF, hok1, Bool.false_eq_true, if_false]
      unfold tagOpenF selfClosingToks
      simp only [parsePunct_hit, h1, hscan1, hattrs]
    · simp only [elementF, hok2, Bool.false_eq_true, if_false]
      unfold tagOpenF openCloseToks
      simp only [parsePunct_hit, h2, hscan2, hattrs]
  | ok attrs =>
    right
    refine ⟨attrs, rfl, ?_, ?_⟩
    · simp only [elementF, hok1, Bool.false_eq_true, if_false]
      unfold tagOpenF selfClosingToks
      simp only [parsePunct_hit, h1, hscan1, hattrs]
      simp
    · simp only [elementF, hok2, Bool.false_eq_true, if_false]
      unfold tagOpenF openCloseToks
      simp only [parsePunct_hit, h2, hscan2, hattrs]
      -- non-self-closing: the children loop stops at the matching close tag
      simp only [childLoopF, hasChildrenF, htcR]
      simp [htcR]

/-- C6 (witness): the theorem applied at the concrete name `a` and
span `k`, i.e. `<a k />` versus `<a k ></a>`. -/
theorem c6_witness :
    (∃ e, runParser2 attributesF [Tok.ident "k"] = .error e
        ∧ elementF false 5 (selfClosingToks [Tok.ident "a"] [Tok.ident "k"] [])
            = (.error e, selfClosingToks [Tok.ident "a"] [Tok.ident "k"] [])
        ∧ elementF false 5 (openCloseToks [Tok.ident "a"] [Tok.ident "k"] [])
            = (.error e, openCloseToks [Tok.ident "a"] [Tok.ident "k"] []))
      ∨ (∃ attrs, runParser2 attributesF [Tok.ident "k"] = .ok attrs
          ∧ elementF false 5 (selfClosingToks [Tok.ident "a"] [Tok.ident "k"] [])
              = (.ok (Node.mk (some (NodeName.path false ["a"])) none
                  NodeType.element attrs []), [])
          ∧ elementF false 5 (openCloseToks [Tok.ident "a"] [Tok.ident "k"] [])
              = (.ok (Node.mk (some (NodeName.path false ["a"])) none
                  NodeType.element attrs []), [])) :=
  c6_selfclosing_equiv false 3 (NodeName.path false ["a"]) [Tok.ident "a"] [Tok.ident "k"] []
    rfl rfl rfl rfl
